import Mathlib

/-!
Verification of the QScript playwright handler
(src/adapters/playwright-python/src/qscript_playwright/handler.py)
against its natural-language specification.

Shallow embedding conventions:
- Python strings are `List Char` (abbrev `Text`).
- Browser/page effects (navigation outcomes, locator counts, attribute values,
  cookies, in-page evaluation) are supplied by an `Env` oracle record; the
  handler logic itself (parsing, dispatch, result construction) is embedded
  from the source.
- Python's `re.match` against each fixed pattern in the source is embedded as a
  dedicated parser implementing that pattern's exact prefix-matching semantics
  (lazy `(.+?)` with backtracking against the pattern's continuation, greedy
  `\d+` / `\w+` / `(.+)`, `\s+`/`\s*`).
- `difflib.SequenceMatcher(None, a, b).ratio()` (used by `similar`) is embedded
  in full: the `b2j` index with the autojunk "popular" filter, the
  `find_longest_match` dynamic program with its non-junk extension loops
  (the junk extension loops are no-ops since `isjunk is None` makes `bjunk`
  empty), the recursive block decomposition, and `2*M/T` as a rational.
  Python returns this ratio as a float; the rational values compared in the
  theorems below (0, 3/10, 1/2, 1) are distinguished by double rounding as
  well, so no fidelity is lost for those statements.
-/

abbrev Text := List Char

/-- Python whitespace for `\s`, `str.split()`, `str.strip()` (ASCII range;
the source scripts are ASCII). -/
def isWS (c : Char) : Bool :=
  c = ' ' || c = '\t' || c = '\n' || c = '\r' || c = '\x0b' || c = '\x0c'

/-- Python `\w` word character (ASCII range). -/
def isWordChar (c : Char) : Bool :=
  ('a' ≤ c && c ≤ 'z') || ('A' ≤ c && c ≤ 'Z') || ('0' ≤ c && c ≤ '9') || c = '_'

/-- Indices at which character `c` occurs in a list, counting from `i`;
ascending order (difflib builds `b2j` this way by enumeration). -/
def positionsFrom (c : Char) : Text → Nat → List Nat
  | [], _ => []
  | x :: xs, i => if x = c then i :: positionsFrom c xs (i + 1) else positionsFrom c xs (i + 1)

def positionsOf (c : Char) (b : Text) : List Nat := positionsFrom c b 0

/-- difflib `SequenceMatcher.__chain_b` with `isjunk is None`: the index of
positions of each element of `b`, with the autojunk rule deleting "popular"
elements (those occurring more than `len(b)//100 + 1` times) when
`len(b) >= 200`. -/
def b2j (b : Text) (c : Char) : List Nat :=
  if 200 ≤ b.length ∧ b.length / 100 + 1 < b.count c then [] else positionsOf c b

structure FLMBest where
  besti : Nat
  bestj : Nat
  bestsize : Nat
deriving Repr, DecidableEq

/-- Inner loop of difflib `find_longest_match`: for each `j` in `b2j[a[i]]`
(already restricted to the window), `k = newj2len[j] = j2len.get(j-1, 0) + 1`,
updating the best block on strictly greater size (`j = 0` reads the absent
key `-1`, hence 0). -/
def flmRow (j2len : Nat → Nat) (i : Nat) :
    List Nat → (Nat → Nat) → FLMBest → ((Nat → Nat) × FLMBest)
  | [], newj2len, best => (newj2len, best)
  | j :: js, newj2len, best =>
    let k := (if j = 0 then 0 else j2len (j - 1)) + 1
    let newj2len2 := fun j2 => if j2 = j then k else newj2len j2
    let best2 := if best.bestsize < k then ⟨i + 1 - k, j + 1 - k, k⟩ else best
    flmRow j2len i js newj2len2 best2

/-- Outer loop of `find_longest_match` over rows `i` in `[alo, ahi)`; each row
starts a fresh `newj2len` (the dict literal `{}`) and the `j < blo: continue`
/ `j >= bhi: break` guards on the ascending position list are the window
filter. -/
def flmRows (a : Text) (b2jf : Char → List Nat) (blo bhi : Nat) :
    List Nat → (Nat → Nat) → FLMBest → FLMBest
  | [], _, best => best
  | i :: is, j2len, best =>
    let js := (b2jf (a.getD i 'a')).filter (fun j => blo ≤ j && j < bhi)
    let p := flmRow j2len i js (fun _ => 0) best
    flmRows a b2jf blo bhi is p.1 p.2

/-- First (non-junk) extension loop of `find_longest_match`: extend the best
block backwards while the preceding elements match (`while besti > alo and
bestj > blo and a[besti-1] == b[bestj-1]`).  Structural recursion on
`besti`, which the loop decrements.  All reachable calls have in-bounds
indices, so the `getD` defaults never matter. -/
def extendBack (a b : Text) (alo blo : Nat) : Nat → Nat → Nat → FLMBest
  | 0, bestj, bestsize => ⟨0, bestj, bestsize⟩
  | bi + 1, bestj, bestsize =>
    if alo < bi + 1 ∧ blo < bestj ∧ a.getD bi 'a' = b.getD (bestj - 1) 'a' then
      extendBack a b alo blo bi (bestj - 1) (bestsize + 1)
    else ⟨bi + 1, bestj, bestsize⟩

/-- Worker for the second (non-junk) extension loop, with fuel
`ahi - (besti + bestsize)`, exactly the number of iterations the guard
`besti + bestsize < ahi` still permits (so exhausted fuel coincides with a
false guard). -/
def extendFwdGo (a b : Text) (ahi bhi besti bestj : Nat) : Nat → Nat → FLMBest
  | 0, bestsize => ⟨besti, bestj, bestsize⟩
  | fuel + 1, bestsize =>
    if besti + bestsize < ahi ∧ bestj + bestsize < bhi ∧
        a.getD (besti + bestsize) 'a' = b.getD (bestj + bestsize) 'a' then
      extendFwdGo a b ahi bhi besti bestj fuel (bestsize + 1)
    else ⟨besti, bestj, bestsize⟩

/-- Second (non-junk) extension loop: extend the best block forwards while
the following elements match. -/
def extendFwd (a b : Text) (ahi bhi : Nat) (besti bestj bestsize : Nat) : FLMBest :=
  extendFwdGo a b ahi bhi besti bestj (ahi - (besti + bestsize)) bestsize

/-- difflib `find_longest_match(alo, ahi, blo, bhi)` for `isjunk is None`:
the DP scan, then the two non-junk extension loops.  The two junk extension
loops are omitted: `self.bjunk` is empty when `isjunk is None`, so their
`isbjunk(...)` guards are always false. -/
def find_longest_match (a b : Text) (b2jf : Char → List Nat)
    (alo ahi blo bhi : Nat) : FLMBest :=
  let best0 := flmRows a b2jf blo bhi (List.range' alo (ahi - alo)) (fun _ => 0) ⟨alo, blo, 0⟩
  let best1 := extendBack a b alo blo best0.besti best0.bestj best0.bestsize
  extendFwd a b ahi bhi best1.besti best1.bestj best1.bestsize

/-- Total size of the matching blocks of `get_matching_blocks` on a window:
the recursive decomposition around each longest match (the queue in difflib
computes the same set of blocks; merging adjacent blocks preserves the total).
`fuel` dominates the recursion depth; every call below passes enough. -/
def matchTotal (a b : Text) (b2jf : Char → List Nat) :
    Nat → Nat → Nat → Nat → Nat → Nat
  | 0, _, _, _, _ => 0
  | fuel + 1, alo, ahi, blo, bhi =>
    let best := find_longest_match a b b2jf alo ahi blo bhi
    if best.bestsize = 0 then 0
    else
      matchTotal a b b2jf fuel alo best.besti blo best.bestj + best.bestsize +
        matchTotal a b b2jf fuel (best.besti + best.bestsize) ahi
          (best.bestj + best.bestsize) bhi

/-- difflib `SequenceMatcher(None, a, b).ratio()`: `2*M/T` where `M` is the
total size of the matching blocks and `T = len(a) + len(b)`;
`_calculate_ratio` returns 1.0 when `T = 0`. -/
def ratioOf (a b : Text) : ℚ :=
  let M := matchTotal a b (b2j b) (a.length + 1) 0 a.length 0 b.length
  let T := a.length + b.length
  if T = 0 then 1 else (2 * M : ℚ) / T

/-- handler.py `similar(a, b) = SequenceMatcher(None, a, b).ratio()`. -/
def similar (a b : Text) : ℚ := ratioOf a b

/-! #### Text utilities used by the handler -/

def natText (n : Nat) : Text := (toString n).data

def natOfDigits (t : Text) : Nat := t.foldl (fun n c => 10 * n + (c.toNat - 48)) 0

/-- Python `str.strip()` (whitespace at both ends, ASCII range). -/
def pyStrip (s : Text) : Text := ((s.dropWhile isWS).reverse.dropWhile isWS).reverse

/-- First element of Python `line.split()` (split on whitespace runs):
`none` when the line has no non-whitespace character (where the source's
`line.split()[0]` would raise IndexError). -/
def firstWord (s : Text) : Option Text :=
  let t := s.dropWhile isWS
  if t = [] then none else some (t.takeWhile (fun c => !(isWS c)))

/-- Python `re.findall(r'\w+', s)`: the maximal word-character runs. -/
def findallAux : Text → Text → List Text
  | [], acc => if acc = [] then [] else [acc.reverse]
  | c :: cs, acc =>
    if isWordChar c then findallAux cs (c :: acc)
    else if acc = [] then findallAux cs [] else acc.reverse :: findallAux cs []

def findall_w (s : Text) : List Text := findallAux s []

/-- Python `str.splitlines()` for newline-terminated text (the scripts use
`\n`; the other Unicode terminators Python also recognizes do not occur). -/
def splitLinesAux : Text → Text → List Text
  | [], acc => if acc = [] then [] else [acc.reverse]
  | c :: cs, acc =>
    if c = '\n' then acc.reverse :: splitLinesAux cs [] else splitLinesAux cs (c :: acc)

def splitLinesT (s : Text) : List Text := splitLinesAux s []

/-- Python `str.lower()` (ASCII range). -/
def lowerT (s : Text) : Text := s.map Char.toLower

/-- Rendering of an optional string by a Python f-string: `None` for the
absent value, the bare string otherwise. -/
def pyShowOpt : Option Text → Text
  | Option.none => "None".data
  | some s => s

/-- Python `str.replace(old, new)` for a nonempty pattern: replace
non-overlapping occurrences, scanning left to right. -/
def listReplace (pat rep : Text) (s : Text) : Text :=
  match s with
  | [] => []
  | c :: cs =>
    if h : pat ≠ [] ∧ pat.isPrefixOf (c :: cs) then
      rep ++ listReplace pat rep ((c :: cs).drop pat.length)
    else
      c :: listReplace pat rep cs
termination_by s.length
decreasing_by
· simp only [List.length_drop, List.length_cons]
  have hp : 0 < pat.length := List.length_pos.mpr h.1
  omega
· simp only [List.length_cons]
  omega

/-- The `<NAME>` placeholder text for a variable name. -/
def placeholder (k : Text) : Text := '<' :: (k ++ ['>'])

/-- run_device lines 519-520: `for k, v in vars_.items(): content =
content.replace(f'<{k}>', v)` — insertion-ordered dict modelled as a list. -/
def substitute (vars : List (Text × Text)) (content : Text) : Text :=
  vars.foldl (fun c kv => listReplace (placeholder kv.1) kv.2 c) content

/-! #### Embedded `re.match` parsers for the source's fixed patterns

Each fixed pattern in the source is embedded as a parser with that pattern's
exact `re.match` (anchored-prefix) semantics: `\s+`/`\s*` are deterministic
before a non-whitespace literal, `\d+`/`\w+`/`[^"]+` are maximal runs
(deterministic before a literal the run cannot contain), a lazy `(.+?)` takes
the shortest nonempty newline-free prefix after which the rest of the pattern
matches (regex backtracking), and a final greedy `(.+)/` cuts at the last
`/` of the maximal newline-free run. -/

def litP (pat : Text) (s : Text) : Option Text :=
  if pat.isPrefixOf s then some (s.drop pat.length) else none

/-- `\s+` -/
def ws1 : Text → Option Text
  | [] => none
  | c :: cs => if isWS c then some (cs.dropWhile isWS) else none

/-- `\s*` -/
def ws0 (s : Text) : Text := s.dropWhile isWS

/-- `\d+` (greedy maximal run). -/
def digits1 (s : Text) : Option (Text × Text) :=
  let d := s.takeWhile Char.isDigit
  if d = [] then none else some (d, s.drop d.length)

/-- `\w+` (greedy maximal run). -/
def word1 (s : Text) : Option (Text × Text) :=
  let w := s.takeWhile isWordChar
  if w = [] then none else some (w, s.drop w.length)

/-- `[^"]+` followed by the closing `"`. -/
def classNonQuote1 (s : Text) : Option (Text × Text) :=
  let w := s.takeWhile (fun c => c ≠ '"')
  if w = [] then none else (litP ['"'] (s.drop w.length)).map (fun r => (w, r))

/-- Worker for `lazyPlus`: the accumulated (reversed) group is nonempty. -/
def lazyGo (tail : Text → Option α) (acc : Text) : Text → Option (Text × α)
  | [] =>
    match tail [] with
    | some r => some (acc.reverse, r)
    | none => none
  | c :: cs =>
    match tail (c :: cs) with
    | some r => some (acc.reverse, r)
    | none => if c = '\n' then none else lazyGo tail (c :: acc) cs

/-- Lazy `(.+?)` followed by a continuation: shortest nonempty newline-free
prefix after which the continuation matches. -/
def lazyPlus (tail : Text → Option α) : Text → Option (Text × α)
  | [] => none
  | c :: cs => if c = '\n' then none else lazyGo tail [c] cs

/-- `"(.+?)"` followed by a continuation. -/
def quotedLazyThen (tail : Text → Option α) (s : Text) : Option (Text × α) := do
  let r ← litP ['"'] s
  lazyPlus (fun t => do
    let t1 ← litP ['"'] t
    tail t1) r

/-- Final greedy `(.+)/` of a pattern: cut the maximal newline-free run at
its last `/`, requiring a nonempty group before it. -/
def slashGreedy (s : Text) : Option Text :=
  let p := s.takeWhile (fun c => c ≠ '\n')
  let k := (p.reverse.takeWhile (fun c => c ≠ '/')).length
  if k < p.length ∧ k + 2 ≤ p.length then some (p.take (p.length - k - 1)) else none

/-- Backtracking worker for a final `\s*(.+)`: try leaving `k` whitespace
characters to `\s*`, from the greedy maximum down to 0. -/
def wsdpGo (r : Text) : Nat → Option Text
  | 0 =>
    if r ≠ [] ∧ r.headD 'a' ≠ '\n' then some (r.takeWhile (fun c => c ≠ '\n')) else none
  | k + 1 =>
    let rem := r.drop (k + 1)
    if rem ≠ [] ∧ rem.headD 'a' ≠ '\n' then some (rem.takeWhile (fun c => c ≠ '\n'))
    else wsdpGo r k

/-- Final `\s*(.+)` of a pattern (SetVar): greedy whitespace, backtracking
until the nonempty newline-free group can match. -/
def wsStarThenDotPlus (r : Text) : Option Text := wsdpGo r (r.takeWhile isWS).length

/-- `Goto\s+"(.+?)"` (handle_goto line 323). -/
def parse_goto (line : Text) : Option Text := do
  let r1 ← litP "Goto".data line
  let r2 ← ws1 r1
  let (url, _) ← quotedLazyThen (fun t => some t) r2
  pure url

/-- `Click\s+"(.+?)"` (handle_click line 373). -/
def parse_click (line : Text) : Option Text := do
  let r1 ← litP "Click".data line
  let r2 ← ws1 r1
  let (sel, _) ← quotedLazyThen (fun t => some t) r2
  pure sel

/-- `WaitFor\s+"(.+?)"` (handle_waitfor line 410). -/
def parse_waitfor (line : Text) : Option Text := do
  let r1 ← litP "WaitFor".data line
  let r2 ← ws1 r1
  let (sel, _) ← quotedLazyThen (fun t => some t) r2
  pure sel

/-- `ScrollTo\s+"(.+?)"` (handle_scrollto line 421). -/
def parse_scrollto (line : Text) : Option Text := do
  let r1 ← litP "ScrollTo".data line
  let r2 ← ws1 r1
  let (sel, _) ← quotedLazyThen (fun t => some t) r2
  pure sel

/-- `KEYWORD\s+"(.+?)"\s+MID\s+"(.+?)"` shared by Fill / FillAuto /
AssertCookie (lines 385, 397, 432). -/
def parse_twoQuoted (kw mid : Text) (line : Text) : Option (Text × Text) := do
  let r1 ← litP kw line
  let r2 ← ws1 r1
  let (g1, (g2, _)) ← quotedLazyThen (fun t => do
    let t1 ← ws1 t
    let t2 ← litP mid t1
    let t3 ← ws1 t2
    quotedLazyThen (fun u => some u) t3) r2
  pure (g1, g2)

def parse_fill (line : Text) : Option (Text × Text) :=
  parse_twoQuoted "Fill".data "with".data line

def parse_fillauto (line : Text) : Option (Text × Text) :=
  parse_twoQuoted "FillAuto".data "with".data line

def parse_assertcookie (line : Text) : Option (Text × Text) :=
  parse_twoQuoted "AssertCookie".data "is".data line

/-- `Viewport\s+(\d+)x(\d+)` (handle_viewport line 444). -/
def parse_viewport (line : Text) : Option (Nat × Nat) := do
  let r1 ← litP "Viewport".data line
  let r2 ← ws1 r1
  let (w, r3) ← digits1 r2
  let r4 ← litP ['x'] r3
  let (h, _) ← digits1 r4
  pure (natOfDigits w, natOfDigits h)

/-- `SetVar\s+"(.+?)"\s*=\s*(.+)` (handle_setvar line 471). -/
def parse_setvar (line : Text) : Option (Text × Text) := do
  let r1 ← litP "SetVar".data line
  let r2 ← ws1 r1
  let (name, expr) ← quotedLazyThen (fun t => do
    let t1 ← litP ['='] (ws0 t)
    wsStarThenDotPlus t1) r2
  pure (name, expr)

/-- `page\.status\s+is\s+(\d+)` (assert_status line 97). -/
def parse_status (expr : Text) : Option Nat := do
  let r1 ← litP "page.status".data expr
  let r2 ← ws1 r1
  let r3 ← litP "is".data r2
  let r4 ← ws1 r3
  let (d, _) ← digits1 r4
  pure (natOfDigits d)

/-- `page\.url\s+is\s+"(.+?)"` (assert_url line 108). -/
def parse_url_is (expr : Text) : Option Text := do
  let r1 ← litP "page.url".data expr
  let r2 ← ws1 r1
  let r3 ← litP "is".data r2
  let r4 ← ws1 r3
  let (url, _) ← quotedLazyThen (fun t => some t) r4
  pure url

/-- `element\s+"(.+?)"\s+TRAILER` shared by exists / visible (lines 117, 127). -/
def parse_element_kw (kw : Text) (expr : Text) : Option Text := do
  let r1 ← litP "element".data expr
  let r2 ← ws1 r1
  let (sel, _) ← quotedLazyThen (fun t => do
    let t1 ← ws1 t
    litP kw t1) r2
  pure sel

def parse_exists (expr : Text) : Option Text := parse_element_kw "exists".data expr

def parse_visible (expr : Text) : Option Text := parse_element_kw "visible".data expr

/-- `element\s+"(.+?)"\s+similar to\s+"(.+?)"\s*<\s*([\d.]+)` (line 159). -/
def parse_similar (expr : Text) : Option (Text × Text × Text) := do
  let r1 ← litP "element".data expr
  let r2 ← ws1 r1
  let (sel, (phrase, thr)) ← quotedLazyThen (fun t => do
    let t1 ← ws1 t
    let t2 ← litP "similar to".data t1
    let t3 ← ws1 t2
    quotedLazyThen (fun u => do
      let u1 ← litP ['<'] (ws0 u)
      let d := (ws0 u1).takeWhile (fun c => Char.isDigit c || c = '.')
      if d = [] then none else some d) t3) r2
  pure (sel, phrase, thr)

/-- `children of\s+"(.+?)"\s+count\s*(>=|<=|>|<|==)\s*(\d+)` (line 190);
the alternation is tried in the pattern's order. -/
def opP (s : Text) : Option (Text × Text) :=
  if (">=".data).isPrefixOf s then some (">=".data, s.drop 2)
  else if ("<=".data).isPrefixOf s then some ("<=".data, s.drop 2)
  else if ([ '>' ]).isPrefixOf s then some ([ '>' ], s.drop 1)
  else if ([ '<' ]).isPrefixOf s then some ([ '<' ], s.drop 1)
  else if ("==".data).isPrefixOf s then some ("==".data, s.drop 2)
  else none

def parse_children (expr : Text) : Option (Text × Text × Nat) := do
  let r1 ← litP "children of".data expr
  let r2 ← ws1 r1
  let (sel, (op, v)) ← quotedLazyThen (fun t => do
    let t1 ← ws1 t
    let t2 ← litP "count".data t1
    let (op, t3) ← opP (ws0 t2)
    let (d, _) ← digits1 (ws0 t3)
    pure (op, natOfDigits d)) r2
  pure (sel, op, v)

/-- `CLS\s*<\s*([\d.]+)` (line 201). -/
def parse_cls (expr : Text) : Option Text := do
  let r1 ← litP "CLS".data expr
  let r2 ← litP ['<'] (ws0 r1)
  let d := (ws0 r2).takeWhile (fun c => Char.isDigit c || c = '.')
  if d = [] then none else some d

/-- `attribute\s+(.+?@.+?)\s+matches\s+/(.+)/` (line 216): the combined
group 1 is reassembled and then split at its first `@` by the handler body
(`elem_attr.split('@', 1)`). -/
def parse_attr_regex (expr : Text) : Option (Text × Text) := do
  let r1 ← litP "attribute".data expr
  let r2 ← ws1 r1
  let (g1, (g2, regex)) ← lazyPlus (fun t => do
    let t1 ← litP ['@'] t
    lazyPlus (fun u => do
      let u1 ← ws1 u
      let u2 ← litP "matches".data u1
      let u3 ← ws1 u2
      let u4 ← litP ['/'] u3
      slashGreedy u4) t1) r2
  pure (g1 ++ '@' :: g2, regex)

/-- `each attribute (\w+) in elements "([^"]+)" matches /(.+)/` (line 230). -/
def parse_each (expr : Text) : Option (Text × Text × Text) := do
  let r1 ← litP "each attribute ".data expr
  let (attr, r2) ← word1 r1
  let r3 ← litP " in elements \"".data r2
  let (sel, r4) ← classNonQuote1 r3
  let r5 ← litP " matches /".data r4
  let regex ← slashGreedy r5
  pure (attr, sel, regex)

/-- `element\s+"(.+?)"\s+language\s+equals\s+html@lang` (line 264). -/
def parse_language (expr : Text) : Option Text := do
  let r1 ← litP "element".data expr
  let r2 ← ws1 r1
  let (sel, _) ← quotedLazyThen (fun t => do
    let t1 ← ws1 t
    let t2 ← litP "language".data t1
    let t3 ← ws1 t2
    let t4 ← litP "equals".data t3
    let t5 ← ws1 t4
    litP "html@lang".data t5) r2
  pure sel

/-- `no duplicates in attribute\s+(\w+)\s+of elements\s+"([^"]+)"` (line 275). -/
def parse_nodup (expr : Text) : Option (Text × Text) := do
  let r1 ← litP "no duplicates in attribute".data expr
  let r2 ← ws1 r1
  let (attr, r3) ← word1 r2
  let r4 ← ws1 r3
  let r5 ← litP "of elements".data r4
  let r6 ← ws1 r5
  let r7 ← litP ['"'] r6
  let (sel, _) ← classNonQuote1 r7
  pure (attr, sel)

/-- Python `float()` on a `[\d.]+` capture: accepted iff it has no dot (an
integer literal) or exactly one dot with at least one digit overall;
`float('.')`, `float('1.2.3')` raise ValueError. -/
def pyFloatQ (t : Text) : Option ℚ :=
  let dots := t.count '.'
  if dots = 0 then (if t = [] then none else some ((natOfDigits t : ℚ)))
  else if dots = 1 then
    let ip := t.takeWhile (fun c => c ≠ '.')
    let fp := t.drop (ip.length + 1)
    if ip = [] ∧ fp = [] then none
    else some ((natOfDigits ip : ℚ) + (natOfDigits fp : ℚ) / ((10 : ℚ) ^ fp.length))
  else none

/-! #### Data model -/

/-- `HTTP_REASONS = http.client.responses` (CPython 3.11). -/
def HTTP_REASONS : List (Nat × Text) :=
  [(100, "Continue".data), (101, "Switching Protocols".data), (102, "Processing".data),
   (103, "Early Hints".data), (200, "OK".data), (201, "Created".data), (202, "Accepted".data),
   (203, "Non-Authoritative Information".data), (204, "No Content".data),
   (205, "Reset Content".data), (206, "Partial Content".data), (207, "Multi-Status".data),
   (208, "Already Reported".data), (226, "IM Used".data), (300, "Multiple Choices".data),
   (301, "Moved Permanently".data), (302, "Found".data), (303, "See Other".data),
   (304, "Not Modified".data), (305, "Use Proxy".data), (307, "Temporary Redirect".data),
   (308, "Permanent Redirect".data), (400, "Bad Request".data), (401, "Unauthorized".data),
   (402, "Payment Required".data), (403, "Forbidden".data), (404, "Not Found".data),
   (405, "Method Not Allowed".data), (406, "Not Acceptable".data),
   (407, "Proxy Authentication Required".data), (408, "Request Timeout".data),
   (409, "Conflict".data), (410, "Gone".data), (411, "Length Required".data),
   (412, "Precondition Failed".data), (413, "Request Entity Too Large".data),
   (414, "Request-URI Too Long".data), (415, "Unsupported Media Type".data),
   (416, "Requested Range Not Satisfiable".data), (417, "Expectation Failed".data),
   (418, "I\x27m a Teapot".data), (421, "Misdirected Request".data),
   (422, "Unprocessable Entity".data), (423, "Locked".data), (424, "Failed Dependency".data),
   (425, "Too Early".data), (426, "Upgrade Required".data), (428, "Precondition Required".data),
   (429, "Too Many Requests".data), (431, "Request Header Fields Too Large".data),
   (451, "Unavailable For Legal Reasons".data), (500, "Internal Server Error".data),
   (501, "Not Implemented".data), (502, "Bad Gateway".data), (503, "Service Unavailable".data),
   (504, "Gateway Timeout".data), (505, "HTTP Version Not Supported".data),
   (506, "Variant Also Negotiates".data), (507, "Insufficient Storage".data),
   (508, "Loop Detected".data), (510, "Not Extended".data),
   (511, "Network Authentication Required".data)]

/-- `HTTP_REASONS.get(status_code, "")`. -/
def httpReason (code : Nat) : Text := ((HTTP_REASONS.lookup code).getD [])

def SUPPORTED_COMMANDS : List Text :=
  ["Goto".data, "Click".data, "Fill".data, "FillAuto".data, "WaitFor".data, "ScrollTo".data,
   "Assert".data, "AssertCookie".data, "Viewport".data, "Retry".data, "SetVar".data,
   "WaitForPopup".data, "SwitchToPopup".data, "ClosePopup".data,
   "SwitchToIFrame".data, "ReturnFromIFrame".data,
   "SaveSession".data, "RestoreSession".data]

inductive Status
  | PASS
  | FAIL
  | SYNTAX_ERROR
deriving DecidableEq, Repr

/-- The PerformanceNavigationTiming record read by handle_goto (numbers as
exact rationals; the engine reports them as floats). -/
structure Timing where
  startTime : ℚ
  redirectCount : Nat
  domainLookupTime : ℚ
  connectTime : ℚ
  requestTime : ℚ
  responseTime : ℚ
  domContentLoadedTime : ℚ
  domCompleteTime : ℚ
  totalTime : ℚ
deriving DecidableEq, Repr

/-- A Python value produced by in-page evaluation (`SetVar`) or stored in
`page._vars`. -/
inductive PyVal
  | str (s : Text)
  | num (q : ℚ)
  | bool (b : Bool)
  | none
  | list (l : List PyVal)
deriving Repr

/-- Python truthiness (`if base:`). -/
def pyTruthy : PyVal → Bool
  | .str s => !s.isEmpty
  | .num q => decide (q ≠ 0)
  | .bool b => b
  | .none => false
  | .list l => !l.isEmpty

/-- A command-specific payload value in a Step Result dict. -/
inductive PVal
  | nat (n : Nat)
  | txt (t : Text)
  | optTxt (o : Option Text)
  | txtList (l : List Text)
  | pairs (l : List (Text × Text))
  | q (x : ℚ)
  | timing (t : Timing)
  | py (v : PyVal)
deriving Repr

/-- One step's result dict.  `error = Option.none` means the `"error"` key is
absent from the dict, `some Option.none` means it is present with value
`None`/null, `some (some m)` means it carries message `m`.  `payload` holds
the command-specific extra keys in insertion order. -/
structure StepResult where
  step : Text
  status : Status
  error : Option (Option Text)
  payload : List (Text × PVal) := []
deriving Repr

/-- The navigation response data handle_goto reads from the engine
(`response.status`, `response.headers`, and the redirect chain that
`get_redirect_chain` computes by walking `request.redirected_from`). -/
structure NavResponse where
  status : Nat
  headers : List (Text × Text)
  redirect_chain : List Text
deriving DecidableEq, Repr

/-- Outcome of `page.goto`: an exception, a `None` response (on which
`response.status` raises AttributeError), or a response together with the
subsequently read navigation-timing record and page title. -/
inductive NavOutcome
  | exn (msg : Text)
  | noneResp
  | ok (resp : NavResponse) (perf : Timing) (title : Text)

/-- Outcome of `locator.get_attribute`: a PlaywrightTimeoutError or a value
(`Option.none` when the attribute is absent). -/
inductive AttrRes
  | timeout
  | val (v : Option Text)

/-- Outcome of `extract_visible_text`. -/
inductive TextRes
  | timeout
  | ok (t : Text)

/-- The browser-session oracle: the engine-side observations and effects of
one page, as the interface boundary of §6 of the spec.  `vars` is
`page._vars` and `lastResponse` the status of `page._last_response` (the only
field of it the handlers read). -/
structure Env where
  nav : Text → NavOutcome
  clickErr : Text → Option Text
  fillErr : Text → Text → Option Text
  pressEnterErr : Text → Option Text
  waitForErr : Text → Option Text
  scrollErr : Text → Option Text
  viewportErr : Nat → Nat → Option Text
  cookies : List (Text × Text)
  evalJS : Text → Except Text PyVal
  vars : List (Text × PyVal)
  lastResponse : Option Nat
  url : Text
  count : Text → Nat
  visible : Text → Nat → Bool
  attr : Text → Text → AttrRes
  attrNth : Text → Nat → Text → AttrRes
  vtext : Text → TextRes
  rmatch : Text → Text → Bool
  cls : ℚ
  now : Nat
  save_snapshots : Bool

/-- Python dict assignment `page._vars[k] = v` on an insertion-ordered dict. -/
def setVar : List (Text × PyVal) → Text → PyVal → List (Text × PyVal)
  | [], k, v => [(k, v)]
  | (k2, v2) :: rest, k, v =>
    if k2 = k then (k, v) :: rest else (k2, v2) :: setVar rest k v

/-- Outcome of one matcher of the assertion chain: shape not recognized
(`None` in the source), a success payload dict, an `AssertionError` with its
message, or any other exception (which `handle_assert` does not catch). -/
inductive MatcherOut
  | nomatch
  | ok (payload : List (Text × PVal))
  | fail (msg : Text)
  | crash (msg : Text)
deriving Repr

/-! #### Assertion matchers (source lines 96-286) -/

def assert_status (env : Env) (expr : Text) : MatcherOut :=
  match parse_status expr with
  | Option.none => .nomatch
  | some exp =>
    match env.lastResponse with
    | Option.none => .fail "No prior Goto; cannot check page.status".data
    | some got =>
      if got ≠ exp then
        .fail ("Expected status ".data ++ natText exp ++ ", got ".data ++ natText got)
      else .ok []

def assert_url (env : Env) (expr : Text) : MatcherOut :=
  match parse_url_is expr with
  | Option.none => .nomatch
  | some exp =>
    if env.url ≠ exp then
      .fail ("Expected URL ".data ++ exp ++ ", got ".data ++ env.url)
    else .ok []

/-- Source name `assert_exists` (renamed: that token is a Mathlib command). -/
def assert_existsQ (env : Env) (expr : Text) : MatcherOut :=
  match parse_exists expr with
  | Option.none => .nomatch
  | some sel =>
    let cnt := env.count sel
    if cnt = 0 then .fail (sel ++ " not found".data)
    else .ok [("children_count".data, .nat cnt)]

def countVisible (env : Env) (sel : Text) : Nat → Nat
  | 0 => 0
  | n + 1 => countVisible env sel n + (if env.visible sel n then 1 else 0)

/-- assert_visible: the `try` block returns only when exactly one element
matches and it is visible; its own `AssertionError("not visible")` is caught
by `except Exception: pass`, so every other case (including the one-hidden-
match case) falls through to the fallback count of visible matches.  The
count/visibility oracles are modelled as non-raising. -/
def assert_visible (env : Env) (expr : Text) : MatcherOut :=
  match parse_visible expr with
  | Option.none => .nomatch
  | some sel =>
    if env.count sel = 1 ∧ env.visible sel 0 then
      .ok [("matches".data, .nat 1), ("visible".data, .nat 1)]
    else
      let total := env.count sel
      if total = 0 then .fail (sel ++ " not found".data)
      else
        let vc := countVisible env sel total
        if vc = 0 then
          .fail (sel ++ " matched ".data ++ natText total ++ " elements, none visible".data)
        else .ok [("matches".data, .nat total), ("visible".data, .nat vc)]

/-- Message text for a similarity failure; the source renders the score with
`{score:.2f}` and a (mojibake) `≥` sign — the numeric formatting is
approximated here, no theorem below inspects this message. -/
def simFailMsg (score thr : ℚ) : Text :=
  "Similarity ".data ++ (toString score).data ++ " >= ".data ++ (toString thr).data

def assert_similar (env : Env) (expr : Text) : MatcherOut :=
  match parse_similar expr with
  | Option.none => .nomatch
  | some (sel, phrase, thrTxt) =>
    match pyFloatQ thrTxt with
    | Option.none => .crash "ValueError: could not convert string to float".data
    | some thr =>
      if ("head meta".data).isPrefixOf (lowerT sel) then
        match env.attr sel "content".data with
        | .timeout =>
          .fail ("Could not read attribute \x27content\x27 from ".data ++ sel ++ ": timed out".data)
        | .val attr =>
          let score := similar (lowerT phrase) (lowerT (attr.getD []))
          if thr ≤ score then .fail (simFailMsg score thr)
          else .ok [("similarity".data, .q score), ("attribute".data, .optTxt attr)]
      else
        match env.vtext sel with
        | .timeout =>
          .fail ("Could not extract visible text from selector ".data ++ sel ++ ": timed out".data)
        | .ok txt =>
          let score := similar (lowerT phrase) (lowerT txt)
          if thr ≤ score then .fail (simFailMsg score thr)
          else .ok [("similarity".data, .q score), ("text_snippet".data, .txt (txt.take 50))]

def childrenOpHolds (op : Text) (cnt v : Nat) : Bool :=
  if op = ">".data then decide (v < cnt)
  else if op = "<".data then decide (cnt < v)
  else if op = ">=".data then decide (v ≤ cnt)
  else if op = "<=".data then decide (cnt ≤ v)
  else decide (cnt = v)

def assert_children (env : Env) (expr : Text) : MatcherOut :=
  match parse_children expr with
  | Option.none => .nomatch
  | some (sel, op, v) =>
    let cnt := env.count (sel ++ " > *".data)
    if !(childrenOpHolds op cnt v) then
      .fail ("Children count ".data ++ natText cnt ++ " ".data ++ op ++ " ".data ++
        natText v ++ " failed".data)
    else .ok [("children_count".data, .nat cnt)]

def assert_cls (env : Env) (expr : Text) : MatcherOut :=
  match parse_cls expr with
  | Option.none => .nomatch
  | some thrTxt =>
    match pyFloatQ thrTxt with
    | Option.none => .crash "ValueError: could not convert string to float".data
    | some thr =>
      if thr ≤ env.cls then
        .fail ("CLS ".data ++ (toString env.cls).data ++ " >= ".data ++ (toString thr).data)
      else .ok [("cls".data, .q env.cls)]

def assert_attribute_regex (env : Env) (expr : Text) : MatcherOut :=
  match parse_attr_regex expr with
  | Option.none => .nomatch
  | some (elemAttr, regex) =>
    let sel := elemAttr.takeWhile (fun c => c ≠ '@')
    let attr := elemAttr.drop (sel.length + 1)
    match env.attr sel attr with
    | .timeout =>
      .fail ("Could not read attribute \x27".data ++ attr ++ "\x27 from ".data ++ sel ++
        ": timed out".data)
    | .val v =>
      if !(env.rmatch regex (v.getD [])) then
        .fail (sel ++ "@".data ++ attr ++ "=\x27".data ++ pyShowOpt v ++
          "\x27 does not match /".data ++ regex ++ "/".data)
      else .ok [("attribute".data, .optTxt v)]

/-- Element loop of assert_regex_each: `re.match(regex, val or '')` on every
matched element's attribute (an oracle for the external regex engine on
script-supplied patterns), plus the mutual-distinctness check against the
`seen` set; a get_attribute timeout here is uncaught. -/
def eachLoop (env : Env) (attr sel regex : Text) :
    Nat → Nat → List (Option Text) → MatcherOut
  | _, 0, seen => .ok [("count".data, .nat seen.length)]
  | i, rem + 1, seen =>
    match env.attrNth sel i attr with
    | .timeout => .crash "PlaywrightTimeoutError".data
    | .val v =>
      if !(env.rmatch regex (v.getD [])) then
        .fail (sel ++ "[".data ++ natText i ++ "]@".data ++ attr ++ "=\x27".data ++
          pyShowOpt v ++ "\x27 fails /".data ++ regex ++ "/".data)
      else if v ∈ seen then
        .fail ("Duplicate ".data ++ attr ++ "=\x27".data ++ pyShowOpt v ++ "\x27".data)
      else eachLoop env attr sel regex (i + 1) rem (seen ++ [v])

def assert_regex_each (env : Env) (expr : Text) : MatcherOut :=
  match parse_each expr with
  | Option.none => .nomatch
  | some (attr, sel, regex) =>
    -- `base = getattr(page, "_vars", {}).get("BASE_URL", None)`; `if base:`
    -- is Python truthiness.  The truthy branch computes
    -- `esc = re.escape(base)` and then evaluates `raw_regex.replace(...)` on
    -- the undefined name `raw_regex`, raising NameError (for a non-string
    -- `base`, `re.escape` raises TypeError first; either way this branch
    -- raises a non-AssertionError exception instead of expanding the
    -- `<BASE_URL>` placeholder into the pattern).
    match env.vars.lookup "BASE_URL".data with
    | some base =>
      if pyTruthy base then .crash "NameError: name \x27raw_regex\x27 is not defined".data
      else eachLoop env attr sel regex 0 (env.count sel) []
    | Option.none => eachLoop env attr sel regex 0 (env.count sel) []

def assert_canonical (env : Env) (expr : Text) : MatcherOut :=
  if pyStrip expr = "canonical href equals page.url".data then
    match env.attr "link[rel=\x27canonical\x27]".data "href".data with
    | .timeout => .crash "PlaywrightTimeoutError".data
    | .val href =>
      if href ≠ some env.url then
        .fail ("canonical=\x27".data ++ pyShowOpt href ++ "\x27 != url=\x27".data ++
          env.url ++ "\x27".data)
      else .ok [("canonical".data, .optTxt href)]
  else .nomatch

def assert_language (env : Env) (expr : Text) : MatcherOut :=
  match parse_language expr with
  | Option.none => .nomatch
  | some sel =>
    match env.attr "html".data "lang".data with
    | .timeout => .crash "PlaywrightTimeoutError".data
    | .val html_lang =>
      match env.attr sel "lang".data with
      | .timeout => .crash "PlaywrightTimeoutError".data
      | .val elem_lang =>
        if elem_lang ≠ html_lang then
          .fail (sel ++ "@lang=\x27".data ++ pyShowOpt elem_lang ++
            "\x27 != html@lang=\x27".data ++ pyShowOpt html_lang ++ "\x27".data)
        else
          .ok [("element_lang".data, .optTxt elem_lang), ("html_lang".data, .optTxt html_lang)]

def noDupLoop (env : Env) (attr sel : Text) :
    Nat → Nat → List (Option Text) → MatcherOut
  | _, 0, seen => .ok [("unique_count".data, .nat seen.length)]
  | i, rem + 1, seen =>
    match env.attrNth sel i attr with
    | .timeout => .crash "PlaywrightTimeoutError".data
    | .val v =>
      if v ∈ seen then
        .fail ("Duplicate ".data ++ attr ++ "=\x27".data ++ pyShowOpt v ++ "\x27 in ".data ++
          sel ++ "[".data ++ natText i ++ "]".data)
      else noDupLoop env attr sel (i + 1) rem (seen ++ [v])

def assert_no_duplicates (env : Env) (expr : Text) : MatcherOut :=
  match parse_nodup expr with
  | Option.none => .nomatch
  | some (attr, sel) => noDupLoop env attr sel 0 (env.count sel) []

/-! #### Assertion chain and command handlers -/

/-- The fixed matcher list of handle_assert (lines 290-295), in priority
order. -/
def assert_handlers : List (Env → Text → MatcherOut) :=
  [assert_status, assert_url, assert_existsQ, assert_visible,
   assert_similar, assert_children, assert_cls,
   assert_attribute_regex, assert_regex_each, assert_canonical,
   assert_language, assert_no_duplicates]

/-- The `snapshot_html` / `snapshot_image` keys attached to a FAIL result
when snapshotting is enabled; the prefix is `snapshot_<ms timestamp>`. -/
def snapshotFields (env : Env) : List (Text × PVal) :=
  let pfx := "snapshot_".data ++ natText env.now
  [("snapshot_html".data, .txt (pfx ++ ".html".data)),
   ("snapshot_image".data, .txt (pfx ++ ".png".data))]

/-- The chain loop of handle_assert: try each matcher; `except
AssertionError` turns a failure into a FAIL result (with snapshot fields if
enabled); a non-`None` return is a PASS with the payload merged in; falling
off the list is the unknown-assertion SYNTAX_ERROR.  Any other exception
(`MatcherOut.crash`) propagates. -/
def chainRun (env : Env) (stepLine expr : Text) :
    List (Env → Text → MatcherOut) → Except Text StepResult
  | [] => .ok ⟨stepLine, .SYNTAX_ERROR, some (some ("Unknown assertion: ".data ++ expr)), []⟩
  | h :: hs =>
    match h env expr with
    | .nomatch => chainRun env stepLine expr hs
    | .ok payload => .ok ⟨stepLine, .PASS, some Option.none, payload⟩
    | .fail m =>
      if env.save_snapshots then .ok ⟨stepLine, .FAIL, some (some m), snapshotFields env⟩
      else .ok ⟨stepLine, .FAIL, some (some m), []⟩
    | .crash m => .error m

def handle_assert (env : Env) (expr : Text) : Except Text StepResult :=
  chainRun env ("Assert ".data ++ expr) expr assert_handlers

/-- handle_goto (lines 314-369); the `.error` case is the uncaught
AttributeError when `page.goto` returns `None`. -/
def handle_goto (env : Env) (line : Text) : Except Text (StepResult × Env) :=
  match parse_goto line with
  | Option.none => .ok (⟨line, .SYNTAX_ERROR, some (some "Malformed Goto".data), []⟩, env)
  | some url =>
    match env.nav url with
    | .exn e => .ok (⟨line, .FAIL, some (some e), []⟩, env)
    | .noneResp =>
      .error "AttributeError: \x27NoneType\x27 object has no attribute \x27status\x27".data
    | .ok resp perf title =>
      let status_code := resp.status
      let status_text := httpReason status_code
      .ok (⟨line,
        (if status_code < 400 then .PASS else .FAIL),
        some (if status_code < 400 then Option.none
              else some ("HTTP ".data ++ natText status_code ++ " ".data ++ status_text)),
        [("status_code".data, .nat status_code),
         ("status_text".data, .txt status_text),
         ("redirect_chain".data, .txtList resp.redirect_chain),
         ("headers".data, .pairs resp.headers),
         ("page_title".data, .txt title),
         ("timing".data, .timing perf)]⟩,
        { env with lastResponse := some status_code })

def handle_click (env : Env) (line : Text) : Except Text (StepResult × Env) :=
  match parse_click line with
  | Option.none => .ok (⟨line, .SYNTAX_ERROR, some (some "Malformed Click".data), []⟩, env)
  | some sel =>
    match env.clickErr sel with
    | some e => .ok (⟨line, .FAIL, some (some e), []⟩, env)
    | Option.none => .ok (⟨line, .PASS, some Option.none, []⟩, env)

def handle_fill (env : Env) (line : Text) : Except Text (StepResult × Env) :=
  match parse_fill line with
  | Option.none => .ok (⟨line, .SYNTAX_ERROR, some (some "Malformed Fill".data), []⟩, env)
  | some (sel, txt) =>
    match env.fillErr sel txt with
    | some e => .ok (⟨line, .FAIL, some (some e), []⟩, env)
    | Option.none => .ok (⟨line, .PASS, some Option.none, []⟩, env)

def handle_fillauto (env : Env) (line : Text) : Except Text (StepResult × Env) :=
  match parse_fillauto line with
  | Option.none => .ok (⟨line, .SYNTAX_ERROR, some (some "Malformed FillAuto".data), []⟩, env)
  | some (sel, txt) =>
    match env.fillErr sel txt with
    | some e => .ok (⟨line, .FAIL, some (some e), []⟩, env)
    | Option.none =>
      match env.pressEnterErr sel with
      | some e => .ok (⟨line, .FAIL, some (some e), []⟩, env)
      | Option.none => .ok (⟨line, .PASS, some Option.none, []⟩, env)

def handle_waitfor (env : Env) (line : Text) : Except Text (StepResult × Env) :=
  match parse_waitfor line with
  | Option.none => .ok (⟨line, .SYNTAX_ERROR, some (some "Malformed WaitFor".data), []⟩, env)
  | some sel =>
    match env.waitForErr sel with
    | some e => .ok (⟨line, .FAIL, some (some e), []⟩, env)
    | Option.none => .ok (⟨line, .PASS, some Option.none, []⟩, env)

def handle_scrollto (env : Env) (line : Text) : Except Text (StepResult × Env) :=
  match parse_scrollto line with
  | Option.none => .ok (⟨line, .SYNTAX_ERROR, some (some "Malformed ScrollTo".data), []⟩, env)
  | some sel =>
    match env.scrollErr sel with
    | some e => .ok (⟨line, .FAIL, some (some e), []⟩, env)
    | Option.none => .ok (⟨line, .PASS, some Option.none, []⟩, env)

def handle_assertcookie (env : Env) (line : Text) : Except Text (StepResult × Env) :=
  match parse_assertcookie line with
  | Option.none =>
    .ok (⟨line, .SYNTAX_ERROR, some (some "Malformed AssertCookie".data), []⟩, env)
  | some (name, val) =>
    let ck := env.cookies.lookup name
    match ck with
    | some v =>
      if v = val then .ok (⟨line, .PASS, some Option.none, []⟩, env)
      else
        .ok (⟨line, .FAIL,
          some (some ("Cookie ".data ++ name ++ " has value ".data ++ v ++
            ", expected ".data ++ val)), []⟩, env)
    | Option.none =>
      .ok (⟨line, .FAIL,
        some (some ("Cookie ".data ++ name ++ " has value None, expected ".data ++ val)),
        []⟩, env)

def handle_viewport (env : Env) (line : Text) : Except Text (StepResult × Env) :=
  match parse_viewport line with
  | Option.none => .ok (⟨line, .SYNTAX_ERROR, some (some "Malformed Viewport".data), []⟩, env)
  | some (w, h) =>
    match env.viewportErr w h with
    | some e => .ok (⟨line, .FAIL, some (some e), []⟩, env)
    | Option.none => .ok (⟨line, .PASS, some Option.none, []⟩, env)

/-- The eight stubs of lines 455-462: always FAIL "Not implemented: kw". -/
def handle_stub (kw : Text) (env : Env) (line : Text) : Except Text (StepResult × Env) :=
  .ok (⟨line, .FAIL, some (some ("Not implemented: ".data ++ kw)), []⟩, env)

def handle_waitforpopup (env : Env) (line : Text) : Except Text (StepResult × Env) :=
  handle_stub "WaitForPopup".data env line

def handle_switchtopopup (env : Env) (line : Text) : Except Text (StepResult × Env) :=
  handle_stub "SwitchToPopup".data env line

def handle_closepopup (env : Env) (line : Text) : Except Text (StepResult × Env) :=
  handle_stub "ClosePopup".data env line

def handle_switchtoiframe (env : Env) (line : Text) : Except Text (StepResult × Env) :=
  handle_stub "SwitchToIFrame".data env line

def handle_returnfromiframe (env : Env) (line : Text) : Except Text (StepResult × Env) :=
  handle_stub "ReturnFromIFrame".data env line

def handle_savesession (env : Env) (line : Text) : Except Text (StepResult × Env) :=
  handle_stub "SaveSession".data env line

def handle_restoresession (env : Env) (line : Text) : Except Text (StepResult × Env) :=
  handle_stub "RestoreSession".data env line

def handle_retry (env : Env) (line : Text) : Except Text (StepResult × Env) :=
  handle_stub "Retry".data env line

/-- handle_setvar (lines 464-485).  On success the returned dict is
`{"step": line, "status": "PASS", varname: val}` — it has no `"error"` key —
and the value is stored into `page._vars`. -/
def handle_setvar (env : Env) (line : Text) : Except Text (StepResult × Env) :=
  match parse_setvar line with
  | Option.none => .ok (⟨line, .SYNTAX_ERROR, some (some "Malformed SetVar".data), []⟩, env)
  | some (varname, js_expr) =>
    match env.evalJS js_expr with
    | .error e => .ok (⟨line, .FAIL, some (some e), []⟩, env)
    | .ok val =>
      .ok (⟨line, .PASS, Option.none, [(varname, .py val)]⟩,
        { env with vars := setVar env.vars varname val })

/-- The keyword→handler dict of execute_step (lines 493-502). -/
def dispatcher : List (Text × (Env → Text → Except Text (StepResult × Env))) :=
  [("Goto".data, handle_goto), ("Click".data, handle_click), ("Fill".data, handle_fill),
   ("FillAuto".data, handle_fillauto),
   ("WaitFor".data, handle_waitfor), ("ScrollTo".data, handle_scrollto),
   ("AssertCookie".data, handle_assertcookie),
   ("Viewport".data, handle_viewport),
   ("WaitForPopup".data, handle_waitforpopup), ("SwitchToPopup".data, handle_switchtopopup),
   ("ClosePopup".data, handle_closepopup), ("SwitchToIFrame".data, handle_switchtoiframe),
   ("ReturnFromIFrame".data, handle_returnfromiframe),
   ("SaveSession".data, handle_savesession), ("RestoreSession".data, handle_restoresession),
   ("Retry".data, handle_retry), ("SetVar".data, handle_setvar)]

/-- Outcome of execute_step: `skip` is the source's `return None` for
metadata lines, `exc` an uncaught exception, `res` a Step Result dict. -/
inductive ExecOut
  | skip
  | exc (m : Text)
  | res (r : StepResult)
deriving Repr

/-- execute_step (lines 487-510), paired with the updated session state. -/
def execute_step (env : Env) (line : Text) : ExecOut × Env :=
  if line = [] ∨ ("#".data).isPrefixOf line ∨ ("Test:".data).isPrefixOf line ∨
      ("Tags:".data).isPrefixOf line ∨ line = "End".data then
    (.skip, env)
  else
    match firstWord line with
    | Option.none => (.exc "IndexError: list index out of range".data, env)
    | some cmd =>
      match dispatcher.lookup cmd with
      | some h =>
        match h env line with
        | .ok (r, env2) => (.res r, env2)
        | .error m => (.exc m, env)
      | Option.none =>
        if cmd = "Assert".data then
          match handle_assert env (pyStrip (line.drop 6)) with
          | .ok r => (.res r, env)
          | .error m => (.exc m, env)
        else if cmd ∈ SUPPORTED_COMMANDS then
          (.res ⟨line, .SYNTAX_ERROR, some (some ("Not implemented: ".data ++ cmd)), []⟩, env)
        else
          (.res ⟨line, .SYNTAX_ERROR, some (some ("Unknown or malformed: ".data ++ cmd)), []⟩,
            env)

/-- The per-line loop of run_device (lines 522-542): strip each raw line,
`Tags:` lines reset the active tag list via `re.findall(r'\w+', ...)`, other
metadata lines are skipped, and each executed step's result is stamped with
`tags.copy()` and appended.  An uncaught exception aborts the run (`.error`).
Returns the results with the final session state and tag list. -/
def run_lines (env : Env) (tags : List Text) :
    List Text → Except Text (List (StepResult × List Text) × Env × List Text)
  | [] => .ok ([], env, tags)
  | raw :: rest =>
    let line := pyStrip raw
    if ("Tags:".data).isPrefixOf line then
      run_lines env (findall_w (line.drop 5)) rest
    else if line = [] ∨ ("Test:".data).isPrefixOf line ∨ line = "End".data ∨
        ("#".data).isPrefixOf line then
      run_lines env tags rest
    else
      match execute_step env line with
      | (.skip, env2) => run_lines env2 tags rest
      | (.exc m, _) => .error m
      | (.res r, env2) =>
        match run_lines env2 tags rest with
        | .error m => .error m
        | .ok (rs, e2, t2) => .ok ((r, tags) :: rs, e2, t2)

/-- run_device (lines 512-546) after the engine opens the page: read the
script text, substitute CLI variables, then run the line loop with an empty
initial tag list. -/
def run_device (env : Env) (vars : List (Text × Text)) (script : Text) :
    Except Text (List (StepResult × List Text) × Env × List Text) :=
  run_lines env [] (splitLinesT (substitute vars script))

/-! #### Auxiliary definitions for the statements and proofs -/

/-- The Step Result a handler produces (dropping the session state);
`Option.none` when the handler raised. -/
def handlerResult (h : Env → Text → Except Text (StepResult × Env)) (env : Env)
    (line : Text) : Option StepResult :=
  match h env line with
  | .ok (r, _) => some r
  | .error _ => Option.none

/-- The verdict-relevant part of a Step Result: everything except the echoed
`step` line. -/
def resultSE (r : StepResult) : Status × Option (Option Text) × List (Text × PVal) :=
  (r.status, r.error, r.payload)

/-- The eight reserved keywords whose handlers are stubs. -/
def stubKeywords : List Text :=
  ["WaitForPopup".data, "SwitchToPopup".data, "ClosePopup".data,
   "SwitchToIFrame".data, "ReturnFromIFrame".data,
   "SaveSession".data, "RestoreSession".data, "Retry".data]

/-- A plain executable step line: already stripped and not one of the
metadata forms the run loop skips. -/
def isStepLine (l : Text) : Prop :=
  pyStrip l = l ∧ l ≠ [] ∧ ¬(("Tags:".data).isPrefixOf l = true) ∧
    ¬(("Test:".data).isPrefixOf l = true) ∧ l ≠ "End".data ∧
    ¬(("#".data).isPrefixOf l = true)

instance (l : Text) : Decidable (isStepLine l) := by unfold isStepLine; infer_instance

/-- A well-formed variable name for a `<NAME>` placeholder: word characters
only. -/
def isName (k : Text) : Prop := ∀ c ∈ k, isWordChar c = true

instance (k : Text) : Decidable (isName k) := by unfold isName; infer_instance

/-- Position `r` of the self-comparison participates in the `b2j` index
(its character was not deleted by the autojunk filter). -/
def inDom (s : Text) (b2jf : Char → List Nat) (r : Nat) : Prop :=
  r ∈ b2jf (s.getD r 'a')

instance (s : Text) (b2jf : Char → List Nat) (r : Nat) :
    Decidable (inDom s b2jf r) := by unfold inDom; infer_instance

/-- Length of the maximal `inDom`-run ending at position `r` (the diagonal
chain length of the self-comparison DP). -/
def drun (s : Text) (b2jf : Char → List Nat) : Nat → Nat
  | 0 => if inDom s b2jf 0 then 1 else 0
  | r + 1 => if inDom s b2jf (r + 1) then drun s b2jf r + 1 else 0

/-- Maximum of `drun` over positions `< r`. -/
def maxD (s : Text) (b2jf : Char → List Nat) : Nat → Nat
  | 0 => 0
  | r + 1 => max (maxD s b2jf r) (drun s b2jf r)

/-- The candidate size of column `j` in a row of the DP, read from the
previous row's dict: `j2len.get(j-1, 0) + 1`. -/
def kfun (j2len : Nat → Nat) (j : Nat) : Nat :=
  (if j = 0 then 0 else j2len (j - 1)) + 1

/-- The compiled continuation of the first lazy group of
`Fill\s+"(.+?)"\s+with\s+"(.+?)"`: a closing quote, `\s+with\s+`, an opening
quote, then the second lazy group with its closing quote. -/
def fillTail (t : Text) : Option (Text × Text) :=
  (litP ['"'] t).bind fun t1 =>
    (ws1 t1).bind fun t1 =>
      (litP ['w', 'i', 't', 'h'] t1).bind fun t2 =>
        (ws1 t2).bind fun t3 =>
          (litP ['"'] t3).bind fun r =>
            lazyPlus (fun t => (litP ['"'] t).bind fun t1 => some t1) r

/-- A demonstration environment for concrete evaluations: all interactions
succeed, two elements match every selector, every attribute reads "v". -/
def demoEnv : Env where
  nav := fun u =>
    if u = "https://ok.example".data then
      .ok ⟨200, [("content-type".data, "text/html".data)], []⟩ ⟨0, 0, 1, 2, 3, 4, 5, 6, 7⟩
        "Home".data
    else if u = "https://missing.example".data then
      .ok ⟨404, [], []⟩ ⟨0, 0, 1, 2, 3, 4, 5, 6, 7⟩ "Not here".data
    else .exn "net::ERR_NAME_NOT_RESOLVED".data
  clickErr := fun _ => Option.none
  fillErr := fun _ _ => Option.none
  pressEnterErr := fun _ => Option.none
  waitForErr := fun _ => Option.none
  scrollErr := fun _ => Option.none
  viewportErr := fun _ h => if h = 2005 then some "viewport size rejected".data else Option.none
  cookies := [("sid".data, "abc".data)]
  evalJS := fun _ => .ok (.num 2)
  vars := []
  lastResponse := Option.none
  url := "https://ok.example".data
  count := fun s => if s = "div#missing".data then 0 else 2
  visible := fun _ _ => true
  attr := fun _ _ => .val (some "v".data)
  attrNth := fun _ _ _ => .val (some "v".data)
  vtext := fun _ => .ok "hello".data
  rmatch := fun _ _ => true
  cls := 0
  now := 1700000000000
  save_snapshots := false

/-! ### Claims -/

/-- Compute `similar` from an externally computed match total (the rational
arithmetic is carried out by `norm_num` at use sites, since Mathlib's `ℚ`
operations do not kernel-reduce). -/
theorem similar_eq_of (a b : Text) (M : Nat)
    (hM : matchTotal a b (b2j b) (a.length + 1) 0 a.length 0 b.length = M)
    (h0 : a.length + b.length ≠ 0) :
    similar a b = (2 * M : ℚ) / (a.length + b.length) := by
  simp only [similar, ratioOf, hM, if_neg h0]
  push_cast
  ring

/-- C1: the claimed invariant — status PASS implies the error field is
present and null, FAIL/SYNTAX_ERROR imply a present non-null error, for
every handler "including SetVar on success" — is violated by the code at
exactly that point: a successful `SetVar` returns
`{"step": line, "status": "PASS", varname: val}` with no `"error"` key at
all (handler.py line 483), so the result has status PASS while the error
field is absent rather than present-and-null.  This theorem evaluates the
embedded handler at the failing input `SetVar "X" = 1+1` (with an
evaluation oracle returning 2): the status is PASS and `error = Option.none`
(key absent, not `some Option.none`). -/
theorem C1_setvar_success_lacks_error_key :
    handlerResult handle_setvar demoEnv ("SetVar \"X\" = 1+1".data) =
      some ⟨"SetVar \"X\" = 1+1".data, Status.PASS, Option.none,
            [("X".data, PVal.py (PyVal.num 2))]⟩ := rfl

/-- C3: with a truthy BASE_URL in the Variable Store, the
`each attribute ... matches` matcher does not expand the `<BASE_URL>`
placeholder and produce a verdict as the claim states: it evaluates the
undefined name `raw_regex` (handler.py line 240) and raises NameError, which
is not an AssertionError and therefore escapes `handle_assert` and
`execute_step`, crashing the device run.  Evaluated at the failing input. -/
theorem C3_base_url_expansion_raises_nameerror :
    assert_regex_each { demoEnv with vars := [("BASE_URL".data, .str "https://e.com".data)] }
        ("each attribute href in elements \"a\" matches /^<BASE_URL>/".data) =
      .crash "NameError: name \x27raw_regex\x27 is not defined".data ∧
    (execute_step { demoEnv with vars := [("BASE_URL".data, .str "https://e.com".data)] }
        ("Assert each attribute href in elements \"a\" matches /^<BASE_URL>/".data)).1 =
      .exc "NameError: name \x27raw_regex\x27 is not defined".data :=
  ⟨rfl, rfl⟩

/-- C6 counterexample: `similar` is not symmetric, so the claim as stated is
false.  At the concrete pair below the two orders give 1/2 and 3/10
(SequenceMatcher's longest-match tie-breaking prefers blocks earliest in its
first argument, which changes the recursive decomposition under swap; the
values are reproduced by CPython's difflib as floats 0.5 and 0.3). -/
theorem C6_similar_not_symmetric :
    similar "zz1abc2def".data "def3zz4abc".data = 1 / 2 ∧
    similar "def3zz4abc".data "zz1abc2def".data = 3 / 10 ∧
    similar "zz1abc2def".data "def3zz4abc".data ≠
      similar "def3zz4abc".data "zz1abc2def".data := by
  have hl1 : ("zz1abc2def".data.length : ℚ) = 10 := by
    norm_num [show "zz1abc2def".data.length = 10 from by decide]
  have hl2 : ("def3zz4abc".data.length : ℚ) = 10 := by
    norm_num [show "def3zz4abc".data.length = 10 from by decide]
  have h1 : similar "zz1abc2def".data "def3zz4abc".data = 1 / 2 := by
    rw [similar_eq_of "zz1abc2def".data "def3zz4abc".data 5 (by decide) (by decide),
      hl1, hl2]
    norm_num
  have h2 : similar "def3zz4abc".data "zz1abc2def".data = 3 / 10 := by
    rw [similar_eq_of "def3zz4abc".data "zz1abc2def".data 3 (by decide) (by decide),
      hl2, hl1]
    norm_num
  refine ⟨h1, h2, ?_⟩
  rw [h1, h2]
  norm_num

/-- C10 counterexample: trailing text is not inert for every handler.
`Viewport 100x200` followed by the trailing text `5` re-parses as height
2005 — the greedy `(\d+)` absorbs a digit-leading suffix — so with an engine
that accepts 200 but rejects 2005 the verdict changes from PASS to FAIL
(still never SYNTAX_ERROR). -/
theorem C10_viewport_trailing_digit_changes_verdict :
    parse_viewport "Viewport 100x200".data = some (100, 200) ∧
    parse_viewport ("Viewport 100x200".data ++ "5".data) = some (100, 2005) ∧
    handlerResult handle_viewport demoEnv ("Viewport 100x200".data) =
      some ⟨"Viewport 100x200".data, Status.PASS, some Option.none, []⟩ ∧
    handlerResult handle_viewport demoEnv ("Viewport 100x200".data ++ "5".data) =
      some ⟨"Viewport 100x2005".data, Status.FAIL,
            some (some "viewport size rejected".data), []⟩ :=
  ⟨by decide, by decide, rfl, rfl⟩

/-- If every character of `p` satisfies `f`, then `p` is a prefix of
`takeWhile f (p ++ r)`. -/
theorem takeWhile_prefix_of_all {f : Char → Bool} (p r : Text)
    (h : ∀ c ∈ p, f c = true) : p <+: (p ++ r).takeWhile f := by
  induction p with
  | nil => exact List.nil_prefix
  | cons c cs ih =>
    simp only [List.cons_append, List.takeWhile_cons, h c (by simp)]
    exact List.cons_prefix_cons.mpr
      ⟨rfl, ih fun x hx => h x (by simp [hx])⟩

/-- A whitespace-free prefix of a line is a prefix of the line's first
whitespace-delimited token. -/
theorem prefix_firstWord {p line kw : Text} (hnws : ∀ c ∈ p, isWS c = false)
    (hpre : p.isPrefixOf line = true) (hw : firstWord line = some kw) : p <+: kw := by
  rcases p with _ | ⟨c, cs⟩
  · exact List.nil_prefix
  · obtain ⟨r, hr⟩ := List.isPrefixOf_iff_prefix.mp hpre
    subst hr
    simp only [firstWord] at hw
    have hdrop : ((c :: cs) ++ r).dropWhile isWS = (c :: cs) ++ r := by
      simp [List.dropWhile_cons, hnws c (by simp)]
    rw [hdrop, if_neg (by simp)] at hw
    have hkw : kw = ((c :: cs) ++ r).takeWhile (fun x => !(isWS x)) :=
      (Option.some_inj.mp hw).symm
    rw [hkw]
    exact takeWhile_prefix_of_all _ _ fun x hx => by simp [hnws x hx]

/-- The execute_step metadata guard is false for a line whose first token is
not itself metadata-shaped. -/
theorem exec_guard_false {line kw : Text} (hw : firstWord line = some kw)
    (h1 : ("#".data).isPrefixOf kw = false) (h2 : ("Test:".data).isPrefixOf kw = false)
    (h3 : ("Tags:".data).isPrefixOf kw = false) (h4 : kw ≠ "End".data) :
    ¬(line = [] ∨ ("#".data).isPrefixOf line = true ∨
      ("Test:".data).isPrefixOf line = true ∨ ("Tags:".data).isPrefixOf line = true ∨
      line = "End".data) := by
  rintro (he | hp | hp | hp | he)
  · rw [he] at hw; exact absurd hw (by simp [firstWord])
  · exact absurd (List.isPrefixOf_iff_prefix.mpr
      (prefix_firstWord (by decide) hp hw)) (by simp [h1])
  · exact absurd (List.isPrefixOf_iff_prefix.mpr
      (prefix_firstWord (by decide) hp hw)) (by simp [h2])
  · exact absurd (List.isPrefixOf_iff_prefix.mpr
      (prefix_firstWord (by decide) hp hw)) (by simp [h3])
  · rw [he] at hw
    have : kw = "End".data := by
      have h5 : firstWord "End".data = some "End".data := by decide
      rw [h5] at hw
      exact (Option.some_inj.mp hw).symm
    exact h4 this

/-- A lookup over an association list none of whose keys equals `a` is
`none`. -/
theorem lookup_none_of_forall {β : Type} (l : List (Text × β)) (a : Text)
    (h : ∀ p ∈ l, ¬a = p.1) : l.lookup a = none := by
  induction l with
  | nil => rfl
  | cons p es ih =>
    rcases p with ⟨k, v⟩
    rw [List.lookup_cons]
    have hne : (a == k) = false := by
      have := h (k, v) (by simp)
      simpa using this
    simp only [hne]
    exact ih fun q hq => h q (by simp [hq])

/-- Every key of the dispatch table is a supported command. -/
theorem dispatcher_keys_supported : ∀ p ∈ dispatcher, p.1 ∈ SUPPORTED_COMMANDS := by
  intro p hp
  simp only [dispatcher, List.mem_cons, List.not_mem_nil, or_false] at hp
  rcases hp with h|h|h|h|h|h|h|h|h|h|h|h|h|h|h|h|h <;> (subst h; decide)

/-- C9: for every non-metadata line whose first whitespace-delimited token is
not a recognized command keyword (not in `SUPPORTED_COMMANDS`, which contains
all dispatch-table keys and `Assert`), execute_step returns a SYNTAX_ERROR
result whose non-null error message names the unknown keyword
(`"Unknown or malformed: <kw>"`). -/
theorem C9_unknown_keyword_syntax_error (env : Env) (line kw : Text)
    (hw : firstWord line = some kw)
    (hsup : kw ∉ SUPPORTED_COMMANDS)
    (hguard : ¬(line = [] ∨ ("#".data).isPrefixOf line = true ∨
      ("Test:".data).isPrefixOf line = true ∨ ("Tags:".data).isPrefixOf line = true ∨
      line = "End".data)) :
    (execute_step env line).1 =
      .res ⟨line, .SYNTAX_ERROR, some (some ("Unknown or malformed: ".data ++ kw)), []⟩ := by
  have hlk : dispatcher.lookup kw = none :=
    lookup_none_of_forall _ _ fun p hp he => hsup (he ▸ dispatcher_keys_supported p hp)
  have hA : ¬kw = "Assert".data := fun he => hsup (by rw [he]; decide)
  simp only [execute_step, if_neg hguard, hw, hlk, if_neg hA, if_neg hsup]

theorem C9_witness :
    (execute_step demoEnv "Jump \"x\"".data).1 =
      .res ⟨"Jump \"x\"".data, .SYNTAX_ERROR,
        some (some ("Unknown or malformed: ".data ++ "Jump".data)), []⟩ :=
  C9_unknown_keyword_syntax_error demoEnv "Jump \"x\"".data "Jump".data
    (by decide) (by decide) (by decide)

/-- C5: every line whose first token is one of the eight reserved keywords
(WaitForPopup, SwitchToPopup, ClosePopup, SwitchToIFrame, ReturnFromIFrame,
SaveSession, RestoreSession, Retry) hits a handler present in the dispatch
table that returns status FAIL with error exactly
`"Not implemented: <keyword>"`, regardless of the rest of the line. -/
theorem C5_stub_commands_always_fail (env : Env) (line kw : Text)
    (hkw : kw ∈ stubKeywords) (hw : firstWord line = some kw) :
    (dispatcher.lookup kw).isSome = true ∧
    (execute_step env line).1 =
      .res ⟨line, .FAIL, some (some ("Not implemented: ".data ++ kw)), []⟩ := by
  simp only [stubKeywords, List.mem_cons, List.not_mem_nil, or_false] at hkw
  rcases hkw with h|h|h|h|h|h|h|h <;>
    (subst h
     have hguard := exec_guard_false hw (by decide) (by decide) (by decide) (by decide)
     constructor
     · decide
     · simp only [execute_step, if_neg hguard, hw]
       rfl)

theorem C5_witness :
    (dispatcher.lookup "Retry".data).isSome = true ∧
    (execute_step demoEnv "Retry 3 times".data).1 =
      .res ⟨"Retry 3 times".data, .FAIL,
        some (some ("Not implemented: ".data ++ "Retry".data)), []⟩ :=
  C5_stub_commands_always_fail demoEnv "Retry 3 times".data "Retry".data
    (by decide) (by decide)

/-- Matchers that do not recognize an expression are skipped by the chain. -/
theorem chainRun_append (env : Env) (sl expr : Text)
    (pre rest : List (Env → Text → MatcherOut))
    (hpre : ∀ h2 ∈ pre, h2 env expr = .nomatch) :
    chainRun env sl expr (pre ++ rest) = chainRun env sl expr rest := by
  induction pre with
  | nil => rfl
  | cons h hs ih =>
    have hh : h env expr = .nomatch := hpre h (by simp)
    simp only [List.cons_append, chainRun, hh]
    exact ih fun h2 hh2 => hpre h2 (by simp [hh2])

/-- C2: if the first matcher of the chain that recognizes an assertion
expression raises a failure (`AssertionError`, modelled as `.fail m`), the
chain catches it and converts it into a Step Result with status FAIL
carrying the descriptive message, enriched with the snapshot fields iff
snapshotting is enabled — the failure does not escape the chain. -/
theorem C2_matcher_failure_becomes_fail (env : Env) (expr m : Text)
    (pre post : List (Env → Text → MatcherOut)) (h : Env → Text → MatcherOut)
    (hchain : assert_handlers = pre ++ h :: post)
    (hpre : ∀ h2 ∈ pre, h2 env expr = .nomatch)
    (hfail : h env expr = .fail m) :
    handle_assert env expr =
      .ok ⟨"Assert ".data ++ expr, .FAIL, some (some m),
           if env.save_snapshots then snapshotFields env else []⟩ := by
  unfold handle_assert
  rw [hchain, chainRun_append env _ expr pre _ hpre]
  simp only [chainRun, hfail]
  by_cases hs : env.save_snapshots <;> simp [hs]

theorem C2_witness :
    handle_assert demoEnv "element \"div#missing\" exists".data =
      .ok ⟨"Assert element \"div#missing\" exists".data, .FAIL,
           some (some ("div#missing".data ++ " not found".data)), []⟩ := by
  have h := C2_matcher_failure_becomes_fail demoEnv "element \"div#missing\" exists".data
    ("div#missing".data ++ " not found".data)
    [assert_status, assert_url]
    [assert_visible, assert_similar, assert_children, assert_cls,
     assert_attribute_regex, assert_regex_each, assert_canonical, assert_language,
     assert_no_duplicates]
    assert_existsQ rfl
    (by intro h2 hh2
        simp only [List.mem_cons, List.not_mem_nil, or_false] at hh2
        rcases hh2 with h|h <;> (subst h; rfl))
    rfl
  simpa using h

/-- C4: for a `Goto "URL"` step whose navigation completes with an HTTP
status code, the result is PASS with a present-and-null error iff the code
is < 400, and FAIL with the error message `"HTTP <code> <reason>"` (which
contains the code and the `http.client.responses` reason) iff the code is
≥ 400; in both cases the result carries the status_code, status_text,
redirect_chain, headers, page_title and timing payload fields. -/
theorem C4_goto_verdict_and_payload (env : Env) (line url : Text) (resp : NavResponse)
    (perf : Timing) (title : Text)
    (hp : parse_goto line = some url)
    (hn : env.nav url = .ok resp perf title) :
    ∃ r, handlerResult handle_goto env line = some r ∧
      (resp.status < 400 → r.status = .PASS ∧ r.error = some Option.none) ∧
      (400 ≤ resp.status → r.status = .FAIL ∧ r.error = some (some
        ("HTTP ".data ++ natText resp.status ++ " ".data ++ httpReason resp.status))) ∧
      r.payload.map Prod.fst =
        ["status_code".data, "status_text".data, "redirect_chain".data,
         "headers".data, "page_title".data, "timing".data] := by
  simp only [handlerResult, handle_goto, hp, hn]
  refine ⟨_, rfl, fun hlt => ?_, fun hge => ?_, by simp⟩
  · simp [if_pos hlt]
  · have hn4 : ¬resp.status < 400 := by omega
    simp [if_neg hn4]

theorem C4_witness :
    (∃ r, handlerResult handle_goto demoEnv "Goto \"https://ok.example\"".data = some r ∧
       r.status = Status.PASS ∧ r.error = some Option.none) ∧
    (∃ r, handlerResult handle_goto demoEnv "Goto \"https://missing.example\"".data = some r ∧
       r.status = Status.FAIL ∧
       r.error = some (some ("HTTP ".data ++ natText 404 ++ " ".data ++ httpReason 404))) := by
  constructor
  · obtain ⟨r, hr, h1, -, -⟩ := C4_goto_verdict_and_payload demoEnv
      "Goto \"https://ok.example\"".data "https://ok.example".data
      ⟨200, [("content-type".data, "text/html".data)], []⟩
      ⟨0, 0, 1, 2, 3, 4, 5, 6, 7⟩ "Home".data (by decide) rfl
    exact ⟨r, hr, (h1 (by norm_num)).1, (h1 (by norm_num)).2⟩
  · obtain ⟨r, hr, -, h2, -⟩ := C4_goto_verdict_and_payload demoEnv
      "Goto \"https://missing.example\"".data "https://missing.example".data
      ⟨404, [], []⟩ ⟨0, 0, 1, 2, 3, 4, 5, 6, 7⟩ "Not here".data (by decide) rfl
    exact ⟨r, hr, (h2 (by norm_num)).1, (h2 (by norm_num)).2⟩

/-- A non-metadata line is never skipped by execute_step. -/
theorem execute_step_not_skip (env : Env) (l : Text)
    (hg : ¬(l = [] ∨ ("#".data).isPrefixOf l = true ∨ ("Test:".data).isPrefixOf l = true ∨
      ("Tags:".data).isPrefixOf l = true ∨ l = "End".data)) :
    (execute_step env l).1 ≠ ExecOut.skip := by
  simp only [execute_step, if_neg hg]
  split
  · simp
  · split
    · split <;> simp
    · split
      · split <;> simp
      · split <;> simp

/-- A `Tags:` line replaces the active tag list with the word runs of its
remainder and produces no result of its own. -/
theorem run_lines_tags_line (env : Env) (tags : List Text) (t : Text) (rest : List Text)
    (ht : pyStrip ("Tags:".data ++ t) = "Tags:".data ++ t) :
    run_lines env tags (("Tags:".data ++ t) :: rest) = run_lines env (findall_w t) rest := by
  simp only [run_lines, ht]
  rw [if_pos (List.isPrefixOf_iff_prefix.mpr (List.prefix_append _ _))]
  have h5 : ("Tags:".data ++ t).drop 5 = t := by
    have h := List.drop_left "Tags:".data t
    simpa using h
  rw [h5]

/-- A block of plain step lines produces exactly one result per line, each
stamped with the active tag list, before the loop continues. -/
theorem run_lines_steps (tags : List Text) :
    ∀ (steps : List Text) (env : Env) (rest : List Text)
      (rs : List (StepResult × List Text)) (e2 : Env) (t2 : List Text),
      (∀ l ∈ steps, isStepLine l) →
      run_lines env tags (steps ++ rest) = .ok (rs, e2, t2) →
      ∃ rs1 rs2 env2, rs = rs1 ++ rs2 ∧
        rs1.map Prod.snd = List.replicate steps.length tags ∧
        run_lines env2 tags rest = .ok (rs2, e2, t2) := by
  intro steps
  induction steps with
  | nil =>
    intro env rest rs e2 t2 _ hrun
    exact ⟨[], rs, env, by simp, by simp, hrun⟩
  | cons l ls ih =>
    intro env rest rs e2 t2 hall hrun
    obtain ⟨hstrip, hne, hTags, hTest, hEnd, hHash⟩ := hall l (by simp)
    rw [List.cons_append] at hrun
    simp only [run_lines, hstrip] at hrun
    rw [if_neg (by simpa using hTags)] at hrun
    rw [if_neg (by rintro (h|h|h|h) <;> simp_all)] at hrun
    rcases hex : execute_step env l with ⟨o, env2⟩
    rw [hex] at hrun
    rcases o with _ | m | r <;> dsimp only [] at hrun
    · exact absurd (by rw [hex]) (execute_step_not_skip env l
        (by rintro (h|h|h|h|h) <;> simp_all))
    · simp at hrun
    · rcases hrec : run_lines env2 tags (ls ++ rest) with m | ⟨rs', e2', t2'⟩ <;>
        rw [hrec] at hrun
      · simp at hrun
      · cases hrun
        obtain ⟨rs1, rs2, env3, hsplit, hmap, hrest⟩ :=
          ih env2 rest rs' e2 t2 (fun x hx => hall x (by simp [hx])) hrec
        exact ⟨(r, tags) :: rs1, rs2, env3, by simp [hsplit], by simp [hmap, List.replicate_succ], hrest⟩

/-- C7: within one device run, a `Tags:` line replaces the active tag set
for all subsequent steps until the next `Tags:` line: in a script
`Tags:<t1>; steps1; Tags:<t2>; steps2` every result of `steps1` is stamped
with the word runs of `t1` and every result of `steps2` with those of
`t2`. -/
theorem C7_tags_stamping (env : Env) (tags0 : List Text) (t1 t2 : Text)
    (steps1 steps2 : List Text) (rs : List (StepResult × List Text)) (e2 : Env)
    (tf : List Text)
    (h1 : ∀ l ∈ steps1, isStepLine l) (h2 : ∀ l ∈ steps2, isStepLine l)
    (ht1 : pyStrip ("Tags:".data ++ t1) = "Tags:".data ++ t1)
    (ht2 : pyStrip ("Tags:".data ++ t2) = "Tags:".data ++ t2)
    (hrun : run_lines env tags0
        (("Tags:".data ++ t1) :: (steps1 ++ ("Tags:".data ++ t2) :: steps2)) =
      .ok (rs, e2, tf)) :
    rs.map Prod.snd = List.replicate steps1.length (findall_w t1) ++
      List.replicate steps2.length (findall_w t2) := by
  rw [run_lines_tags_line env tags0 t1 _ ht1] at hrun
  obtain ⟨rs1, rs2, env2, hsplit, hmap1, hrest⟩ :=
    run_lines_steps (findall_w t1) steps1 env _ rs e2 tf h1 hrun
  rw [run_lines_tags_line env2 (findall_w t1) t2 steps2 ht2] at hrest
  rw [show steps2 = steps2 ++ [] from (List.append_nil steps2).symm] at hrest
  obtain ⟨rs21, rs22, env3, hsplit2, hmap2, hrest2⟩ :=
    run_lines_steps (findall_w t2) steps2 env2 [] rs2 e2 tf h2 hrest
  have h22 : rs22 = [] := by
    simp only [run_lines, Except.ok.injEq, Prod.mk.injEq] at hrest2
    exact hrest2.1.symm
  rw [hsplit, hsplit2, h22]
  simp [hmap1, hmap2]


theorem C7_witness :
    ([(⟨"Click \"a\"".data, Status.PASS, some Option.none, []⟩,
       ["smoke".data, "regression".data]),
      (⟨"Click \"b\"".data, Status.PASS, some Option.none, []⟩,
       ["smoke".data, "regression".data]),
      (⟨"Click \"c\"".data, Status.PASS, some Option.none, []⟩,
       ["smoke".data, "regression".data]),
      (⟨"Click \"d\"".data, Status.PASS, some Option.none, []⟩, ["extended".data]),
      (⟨"Click \"e\"".data, Status.PASS, some Option.none, []⟩, ["extended".data])] :
        List (StepResult × List Text)).map Prod.snd =
      List.replicate 3 (findall_w " smoke regression".data) ++
      List.replicate 2 (findall_w " extended".data) :=
  C7_tags_stamping demoEnv [] " smoke regression".data " extended".data
    ["Click \"a\"".data, "Click \"b\"".data, "Click \"c\"".data]
    ["Click \"d\"".data, "Click \"e\"".data]
    _ demoEnv ["extended".data]
    (by intro l hl; fin_cases hl <;> decide)
    (by intro l hl; fin_cases hl <;> decide)
    (by decide) (by decide) rfl

theorem listReplace_nil (pat rep : Text) : listReplace pat rep [] = [] := by
  rw [listReplace]

theorem listReplace_cons_pos (pat rep : Text) (c : Char) (cs : Text)
    (h : pat ≠ [] ∧ pat.isPrefixOf (c :: cs) = true) :
    listReplace pat rep (c :: cs) =
      rep ++ listReplace pat rep ((c :: cs).drop pat.length) := by
  rw [listReplace]
  simp only [dif_pos h]

theorem listReplace_cons_neg (pat rep : Text) (c : Char) (cs : Text)
    (h : ¬(pat ≠ [] ∧ pat.isPrefixOf (c :: cs) = true)) :
    listReplace pat rep (c :: cs) = c :: listReplace pat rep cs := by
  rw [listReplace]
  simp only [dif_neg h]

/-- No occurrence of the pattern leaves `str.replace` as the identity. -/
theorem listReplace_of_not_infix (pat rep : Text) :
    ∀ t, ¬pat <:+: t → listReplace pat rep t = t := by
  intro t
  induction t with
  | nil => intro _; exact listReplace_nil pat rep
  | cons c cs ih =>
    intro h
    have hnp : ¬(pat ≠ [] ∧ pat.isPrefixOf (c :: cs) = true) := by
      rintro ⟨-, hpre⟩
      exact h (List.isPrefixOf_iff_prefix.mp hpre).isInfix
    rw [listReplace_cons_neg _ _ _ _ hnp, ih fun hi => h (List.infix_cons hi)]

/-- The scan of `str.replace` copies a region in which no occurrence of the
pattern starts. -/
theorem listReplace_skip (pat rep : Text) :
    ∀ x y, (∀ i, i < x.length → ¬pat.isPrefixOf (x.drop i ++ y) = true) →
      listReplace pat rep (x ++ y) = x ++ listReplace pat rep y := by
  intro x
  induction x with
  | nil => simp
  | cons c cs ih =>
    intro y h
    rw [List.cons_append]
    have h0 : ¬(pat ≠ [] ∧ pat.isPrefixOf (c :: (cs ++ y)) = true) := by
      rintro ⟨-, hp⟩
      exact h 0 (by simp) (by simpa using hp)
    rw [listReplace_cons_neg _ _ _ _ h0,
      ih y fun i hi => by simpa using h (i + 1) (by simpa using hi)]
    simp

/-- Two word-character runs closed by `>` that start the same text are
equal. -/
theorem word_run_eq : ∀ (K A r1 r2 : Text), (∀ c ∈ K, isWordChar c = true) →
    (∀ c ∈ A, isWordChar c = true) →
    K ++ '>' :: r1 = A ++ '>' :: r2 → K = A := by
  intro K
  induction K with
  | nil =>
    intro A r1 r2 _ hA h
    rcases A with _ | ⟨a, A'⟩
    · rfl
    · simp only [List.nil_append, List.cons_append, List.cons.injEq] at h
      have := hA a (by simp)
      rw [← h.1] at this
      exact absurd this (by decide)
  | cons k K' ih =>
    intro A r1 r2 hK hA h
    rcases A with _ | ⟨a, A'⟩
    · simp only [List.cons_append, List.nil_append, List.cons.injEq] at h
      have := hK k (by simp)
      rw [h.1] at this
      exact absurd this (by decide)
    · simp only [List.cons_append, List.cons.injEq] at h
      rw [h.1, ih A' r1 r2 (fun c hc => hK c (by simp [hc])) (fun c hc => hA c (by simp [hc])) h.2]

/-- Two placeholders that are both prefixes of the same text name the same
variable. -/
theorem placeholder_prefix_unique {K A : Text} (hK : isName K) (hA : isName A)
    {t : Text} (h1 : (placeholder K).isPrefixOf t = true)
    (h2 : (placeholder A).isPrefixOf t = true) : K = A := by
  obtain ⟨r1, e1⟩ := List.isPrefixOf_iff_prefix.mp h1
  obtain ⟨r2, e2⟩ := List.isPrefixOf_iff_prefix.mp h2
  rw [← e2] at e1
  simp only [placeholder, List.cons_append, List.cons.injEq, List.append_assoc,
    List.singleton_append] at e1
  exact word_run_eq K A r1 r2 hK hA e1.2

/-- The head of a nonempty prefix is the head of the whole list. -/
theorem head?_of_prefix {w z : Text} (h : w <+: z) (hne : w ≠ []) :
    z.head? = w.head? := by
  obtain ⟨t, rfl⟩ := h
  rcases w with _ | ⟨a, w'⟩
  · exact absurd rfl hne
  · rfl

/-- A placeholder never starts strictly inside another placeholder: its
leading `<` cannot match a word character or the closing `>`. -/
theorem placeholder_not_prefix_inside {K A : Text} (hA : isName A)
    (j : Nat) (hj1 : 1 ≤ j) (hj2 : j < (placeholder A).length) (y : Text) :
    ¬(placeholder K).isPrefixOf ((placeholder A).drop j ++ y) = true := by
  intro hp
  obtain ⟨r, hr⟩ := List.isPrefixOf_iff_prefix.mp hp
  -- head of the target is an element of A ++ ['>'], hence not '<'
  have hdrop : (placeholder A).drop j = (A ++ ['>']).drop (j - 1) := by
    rcases j with _ | j'
    · omega
    · simp [placeholder]
  have hlen : j - 1 < (A ++ ['>']).length := by
    simp only [placeholder, List.length_cons] at hj2
    simp only [List.length_append, List.length_singleton]
    simp only [List.length_append, List.length_singleton] at hj2
    omega
  have hne : (A ++ ['>']).drop (j - 1) ≠ [] := by
    intro he
    have := List.drop_eq_nil_iff.mp he
    omega
  obtain ⟨c0, rest0, hc0⟩ := List.exists_cons_of_ne_nil hne
  have hmem : c0 ∈ A ++ ['>'] := by
    have : c0 ∈ (A ++ ['>']).drop (j - 1) := by rw [hc0]; simp
    exact List.drop_subset _ _ this
  have hc0ne : c0 ≠ '<' := by
    rcases List.mem_append.mp hmem with hm | hm
    · intro he; have := hA c0 hm; rw [he] at this; exact absurd this (by decide)
    · intro he; rw [he] at hm; simp at hm
  -- but the prefix forces the head to be '<'
  have : ((placeholder A).drop j ++ y).head? = some '<' := by
    rw [← hr]
    rfl
  rw [hdrop, hc0] at this
  simp at this
  exact hc0ne this

/-- The scan of `str.replace` reaches the leftmost placeholder occurrence
and replaces it (occurrences of a placeholder cannot overlap). -/
theorem listReplace_at_occurrence {K : Text} (hK : isName K) (val u v : Text)
    (hu : ¬placeholder K <:+: u) :
    listReplace (placeholder K) val (u ++ (placeholder K ++ v)) =
      u ++ (val ++ listReplace (placeholder K) val v) := by
  rw [listReplace_skip _ _ u _ ?hskip]
  · congr 1
    have hshape : placeholder K ++ v = '<' :: ((K ++ ['>']) ++ v) := by
      simp [placeholder]
    rw [hshape, listReplace_cons_pos _ _ _ _ ?hpos]
    · congr 1
      rw [← hshape]
      have h := List.drop_left (placeholder K) v
      simpa using h
    case hpos =>
      refine ⟨by simp [placeholder], ?_⟩
      rw [← hshape]
      exact List.isPrefixOf_iff_prefix.mpr (List.prefix_append _ _)
  case hskip =>
    intro i hi hp
    by_cases hle : (placeholder K).length ≤ (u.drop i).length
    · have hpre : placeholder K <+: u.drop i :=
        (List.isPrefix_append_of_length hle).mp (List.isPrefixOf_iff_prefix.mp hp)
      exact hu (hpre.isInfix.trans (List.drop_suffix i u).isInfix)
    · obtain ⟨r, hr⟩ := List.isPrefixOf_iff_prefix.mp hp
      have hz : (u.drop i).length - (placeholder K).length = 0 := by omega
      have h1 : (placeholder K ++ r).drop (u.drop i).length =
          (placeholder K).drop (u.drop i).length ++ r := by
        rw [List.drop_append_eq_append_drop, hz, List.drop_zero]
      have h2 : ((u.drop i) ++ (placeholder K ++ v)).drop (u.drop i).length =
          placeholder K ++ v := List.drop_left _ _
      have hdropped : (placeholder K).drop (u.drop i).length ++ r =
          placeholder K ++ v := by
        rw [← h1, ← h2, hr]
      have hj1 : 1 ≤ (u.drop i).length := by
        have hne : (u.drop i) ≠ [] := by
          intro he
          have := List.drop_eq_nil_iff.mp he
          omega
        rcases hd : u.drop i with _ | _
        · exact absurd hd hne
        · simp
      have hpre2 : (placeholder K).isPrefixOf
          ((placeholder K).drop (u.drop i).length ++ r) = true :=
        List.isPrefixOf_iff_prefix.mpr ⟨v, hdropped.symm⟩
      exact placeholder_not_prefix_inside hK (u.drop i).length hj1 (by omega) r hpre2

/-- Replacing occurrences of one placeholder preserves occurrences of any
differently named placeholder: distinct placeholders cannot overlap. -/
theorem listReplace_preserves_other {K A : Text} (hK : isName K) (hA : isName A)
    (hne : K ≠ A) (rep : Text) :
    ∀ n t, t.length ≤ n → placeholder A <:+: t →
      placeholder A <:+: listReplace (placeholder K) rep t := by
  intro n
  induction n with
  | zero =>
    intro t hlen hinf
    have ht : t = [] := List.length_eq_zero.mp (Nat.le_zero.mp hlen)
    subst ht
    obtain ⟨x, y, hxy⟩ := hinf
    exact absurd hxy (by simp [placeholder])
  | succ n ih =>
    intro t hlen hinf
    rcases t with _ | ⟨c, cs⟩
    · obtain ⟨x, y, hxy⟩ := hinf
      exact absurd hxy (by simp [placeholder])
    · by_cases hp : placeholder K ≠ [] ∧ (placeholder K).isPrefixOf (c :: cs) = true
      · rw [listReplace_cons_pos _ _ _ _ hp]
        obtain ⟨rest, hrest⟩ := List.isPrefixOf_iff_prefix.mp hp.2
        have hdrop : (c :: cs).drop (placeholder K).length = rest := by
          rw [← hrest]; exact List.drop_left _ _
        rw [hdrop]
        obtain ⟨x, y, hxy⟩ := hinf
        have hlenr : rest.length ≤ n := by
          have h1 := congrArg List.length hrest
          have h2 : 1 ≤ (placeholder K).length := by simp [placeholder]
          simp only [List.length_append, List.length_cons] at h1 hlen ⊢
          omega
        by_cases hxlen : (placeholder K).length ≤ x.length
        · have hrearr : (placeholder K ++ rest) = x ++ (placeholder A ++ y) := by
            rw [hrest, ← hxy]; simp [List.append_assoc]
          have hdr := congrArg (List.drop (placeholder K).length) hrearr
          rw [List.drop_left, List.drop_append_eq_append_drop] at hdr
          have hz : (placeholder K).length - x.length = 0 := by omega
          rw [hz, List.drop_zero] at hdr
          have hinf2 : placeholder A <:+: rest :=
            ⟨x.drop (placeholder K).length, y, by rw [hdr]; simp⟩
          obtain ⟨x2, y2, hxy2⟩ := ih rest hlenr hinf2
          exact ⟨rep ++ x2, y2, by rw [← hxy2]; simp [List.append_assoc]⟩
        · rcases x with _ | ⟨x0, x'⟩
          · have hApre : (placeholder A).isPrefixOf (c :: cs) = true := by
              refine List.isPrefixOf_iff_prefix.mpr ⟨y, ?_⟩
              simpa using hxy
            exact absurd (placeholder_prefix_unique hK hA hp.2 hApre) hne
          · have hx1 : 1 ≤ (x0 :: x').length := by simp
            have hrearr : placeholder K ++ rest = (x0 :: x') ++ (placeholder A ++ y) := by
              rw [hrest, ← hxy]; simp [List.append_assoc]
            have hdr := congrArg (List.drop (x0 :: x').length) hrearr
            rw [List.drop_append_eq_append_drop] at hdr
            have hz : (x0 :: x').length - (placeholder K).length = 0 := by omega
            rw [hz, List.drop_zero, List.drop_left] at hdr
            have hApre : (placeholder A).isPrefixOf
                ((placeholder K).drop (x0 :: x').length ++ rest) = true :=
              List.isPrefixOf_iff_prefix.mpr ⟨y, hdr.symm⟩
            exact absurd hApre
              (placeholder_not_prefix_inside hK (x0 :: x').length hx1 (by omega) rest)
      · rw [listReplace_cons_neg _ _ _ _ hp]
        obtain ⟨x, y, hxy⟩ := hinf
        rcases x with _ | ⟨x0, x'⟩
        · have hshape : placeholder A ++ y = '<' :: ((A ++ ['>']) ++ y) := by
            simp [placeholder]
          have hxy2 : c :: cs = '<' :: ((A ++ ['>']) ++ y) := by
            rw [← hshape, ← hxy]; simp
          have hc : c = '<' := (List.cons.injEq _ _ _ _ ▸ hxy2).1
          have hcs : cs = (A ++ ['>']) ++ y := (List.cons.injEq _ _ _ _ ▸ hxy2).2
          rw [hcs, listReplace_skip _ _ (A ++ ['>']) y ?inner]
          · refine ⟨[], listReplace (placeholder K) rep y, ?_⟩
            rw [hc]
            simp [placeholder]
          case inner =>
            intro i hil hpre
            have hrw : (A ++ ['>']).drop i = (placeholder A).drop (i + 1) := by
              simp [placeholder]
            rw [hrw] at hpre
            have hil2 : i + 1 < (placeholder A).length := by
              simp only [List.length_append, List.length_singleton] at hil
              simp only [placeholder, List.length_cons, List.length_append,
                List.length_singleton]
              omega
            exact placeholder_not_prefix_inside hA (i + 1) (by omega) hil2 y hpre
        · have hcs : cs = x' ++ (placeholder A ++ y) := by
            have := hxy
            simp only [List.cons_append, List.cons.injEq, List.append_assoc] at this
            exact this.2.symm
          have hinf2 : placeholder A <:+: cs := ⟨x', y, by rw [hcs]; simp⟩
          have hlen2 : cs.length ≤ n := by
            simp only [List.length_cons] at hlen
            omega
          exact List.infix_cons (ih cs hlen2 hinf2)

/-- C8: pre-parse variable substitution (a) replaces every `<NAME>`
placeholder with the declared value — the scan reaches the leftmost
occurrence, substitutes the value, and continues behind it — (b) leaves
placeholders of undeclared (word-character) names intact, because distinct
placeholders cannot overlap, and (c) substituting a variable whose
placeholder does not occur leaves the script text unchanged. -/
theorem C8_substitution :
    (∀ K val u v, isName K → ¬placeholder K <:+: u →
       substitute [(K, val)] (u ++ (placeholder K ++ v)) =
         u ++ (val ++ listReplace (placeholder K) val v)) ∧
    (∀ (vars : List (Text × Text)) A t, (∀ kv ∈ vars, isName kv.1) → isName A →
       (∀ kv ∈ vars, kv.1 ≠ A) →
       placeholder A <:+: t → placeholder A <:+: substitute vars t) ∧
    (∀ K val t, ¬placeholder K <:+: t → substitute [(K, val)] t = t) := by
  refine ⟨?_, ?_, ?_⟩
  · intro K val u v hK hu
    exact listReplace_at_occurrence hK val u v hu
  · intro vars
    induction vars with
    | nil => intro A t _ _ _ h; exact h
    | cons kv vars ih =>
      intro A t hall hA hne h
      have hstep : placeholder A <:+: listReplace (placeholder kv.1) kv.2 t :=
        listReplace_preserves_other (hall kv (by simp)) hA (hne kv (by simp)) kv.2
          t.length t (le_refl _) h
      have := ih A (listReplace (placeholder kv.1) kv.2 t)
        (fun q hq => hall q (by simp [hq])) hA (fun q hq => hne q (by simp [hq])) hstep
      simpa [substitute] using this
  · intro K val t h
    exact listReplace_of_not_infix (placeholder K) val t h

theorem C8_witness :
    substitute [("BASE_URL".data, "https://e".data)]
        ("Goto \"".data ++ (placeholder "BASE_URL".data ++ "/x\"".data)) =
      "Goto \"".data ++ ("https://e".data ++
        listReplace (placeholder "BASE_URL".data) "https://e".data "/x\"".data) ∧
    placeholder "OTHER".data <:+:
      substitute [("K1".data, "vv".data)] "a <OTHER> b".data ∧
    substitute [("BASE_URL".data, "https://e".data)] "Goto \"x\"".data =
      "Goto \"x\"".data :=
  ⟨C8_substitution.1 "BASE_URL".data "https://e".data "Goto \"".data "/x\"".data
     (by decide) (by decide),
   C8_substitution.2.1 [("K1".data, "vv".data)] "OTHER".data "a <OTHER> b".data
     (by intro kv hkv; fin_cases hkv; decide) (by decide)
     (by intro kv hkv; fin_cases hkv; decide)
     (by decide),
   C8_substitution.2.2 "BASE_URL".data "https://e".data "Goto \"x\"".data (by decide)⟩

theorem litP_append (p s e r : Text) (h : litP p s = some r) :
    litP p (s ++ e) = some (r ++ e) := by
  unfold litP at h ⊢
  split at h
  · rename_i hpre
    have hp := List.isPrefixOf_iff_prefix.mp hpre
    rw [if_pos (List.isPrefixOf_iff_prefix.mpr (hp.trans (List.prefix_append s e)))]
    have hle := hp.length_le
    rw [List.drop_append_eq_append_drop]
    have hz : p.length - s.length = 0 := by omega
    rw [hz, List.drop_zero]
    simpa using congrArg (fun x => some (x ++ e)) (Option.some_inj.mp h)
  · exact absurd h (by simp)

theorem litP_target_ne_nil (c : Char) (p s r : Text) (h : litP (c :: p) s = some r) :
    s ≠ [] := by
  intro he
  subst he
  unfold litP at h
  simp [List.isPrefixOf] at h

theorem ws1_append (s e r : Text) (h : ws1 s = some r) (hne : r ≠ []) :
    ws1 (s ++ e) = some (r ++ e) := by
  rcases s with _ | ⟨c, cs⟩
  · simp [ws1] at h
  · simp only [ws1] at h
    by_cases hws : isWS c
    · rw [if_pos hws] at h
      have hr : cs.dropWhile isWS = r := Option.some_inj.mp h
      rw [List.cons_append]
      simp only [ws1, if_pos hws]
      rw [List.dropWhile_append, hr]
      have hfalse : r.isEmpty = false := by
        rcases r with _ | _
        · exact absurd rfl hne
        · rfl
      simp [hfalse]
    · rw [if_neg hws] at h
      exact absurd h (by simp)

theorem dropWhile_eq_drop_takeWhile (p : Char → Bool) (s : Text) :
    s.drop (s.takeWhile p).length = s.dropWhile p := by
  nth_rewrite 2 [← List.takeWhile_append_dropWhile p s]
  rw [List.drop_left]

theorem digits1_append_of_rest (s e d r : Text) (h : digits1 s = some (d, r))
    (hne : r ≠ []) : digits1 (s ++ e) = some (d, r ++ e) := by
  simp only [digits1] at h ⊢
  by_cases htw : s.takeWhile Char.isDigit = []
  · rw [if_pos htw] at h
    exact absurd h (by simp)
  · rw [if_neg htw] at h
    have hpair := Option.some_inj.mp h
    have hd : s.takeWhile Char.isDigit = d := congrArg Prod.fst hpair
    have hr : s.drop (s.takeWhile Char.isDigit).length = r := by
      have h2 := congrArg Prod.snd hpair
      simpa [hd] using h2
    have hrdw : s.dropWhile Char.isDigit = r := by
      rw [← dropWhile_eq_drop_takeWhile Char.isDigit s, hr]
    have hlen : (s.takeWhile Char.isDigit).length ≠ s.length := by
      intro hl
      have hdw : s.dropWhile Char.isDigit = [] := by
        have h0 := dropWhile_eq_drop_takeWhile Char.isDigit s
        rw [hl, List.drop_length] at h0
        exact h0.symm
      exact hne (by rw [← hrdw, hdw])
    rw [List.takeWhile_append, if_neg hlen, if_neg (by rw [hd] at htw ⊢; exact htw)]
    rw [hd]
    congr 1
    rw [List.drop_append_eq_append_drop]
    have hle : d.length ≤ s.length := by
      rw [← hd]
      have hp : s.takeWhile Char.isDigit <+: s := List.takeWhile_prefix Char.isDigit
      simpa using hp.length_le
    have hz : d.length - s.length = 0 := by omega
    rw [hz, List.drop_zero, ← hd, hr]

theorem digits1_append_isSome (s e d r : Text) (h : digits1 s = some (d, r)) :
    (digits1 (s ++ e)).isSome = true := by
  simp only [digits1] at h ⊢
  by_cases htw : s.takeWhile Char.isDigit = []
  · rw [if_pos htw] at h
    exact absurd h (by simp)
  · rcases hs : s with _ | ⟨c, cs⟩
    · rw [hs] at htw
      simp at htw
    · rw [hs] at htw
      have hc : Char.isDigit c = true := by
        by_contra hcn
        simp [List.takeWhile_cons, Bool.of_not_eq_true hcn] at htw
      rw [List.cons_append, List.takeWhile_cons, if_pos hc]
      simp

theorem digits1_append_last (s e d : Text) (h : digits1 s = some (d, []))
    (he : (e.headD 'a').isDigit = false) : digits1 (s ++ e) = some (d, e) := by
  simp only [digits1] at h ⊢
  by_cases htw : s.takeWhile Char.isDigit = []
  · rw [if_pos htw] at h
    exact absurd h (by simp)
  · rw [if_neg htw] at h
    have hpair := Option.some_inj.mp h
    have hd : s.takeWhile Char.isDigit = d := congrArg Prod.fst hpair
    have hr : s.drop (s.takeWhile Char.isDigit).length = [] := by
      have h2 := congrArg Prod.snd hpair
      simpa [hd] using h2
    have hlen : (s.takeWhile Char.isDigit).length = s.length := by
      have hp : s.takeWhile Char.isDigit <+: s := List.takeWhile_prefix Char.isDigit
      have hle := hp.length_le
      have := List.drop_eq_nil_iff.mp hr
      omega
    have hetw : e.takeWhile Char.isDigit = [] := by
      rcases e with _ | ⟨c, cs⟩
      · rfl
      · simp only [List.headD_cons] at he
        simp [List.takeWhile_cons, he]
    have hds : s.takeWhile Char.isDigit = s :=
      List.IsPrefix.eq_of_length (List.takeWhile_prefix _) hlen
    have hde : d = s := by rw [← hd, hds]
    have htwe : (s ++ e).takeWhile Char.isDigit = s := by
      rw [List.takeWhile_append, if_pos hlen, hetw, List.append_nil]
    rw [htwe, if_neg (by rw [← hds]; exact htw)]
    have hdrop : (s ++ e).drop s.length = e := List.drop_left s e
    rw [hdrop, hde]

theorem litP_single (q c : Char) (x : Text) :
    litP [q] (c :: x) = if q = c then some x else none := by
  by_cases hq : q = c <;> simp [litP, List.isPrefixOf, hq]

theorem lazyGo_of_tail_some {α : Type} (T : Text → Option α) (acc s : Text) (r : α)
    (h : T s = some r) : lazyGo T acc s = some (acc.reverse, r) := by
  rcases s with _ | ⟨c, cs⟩ <;> simp only [lazyGo, h]

theorem lazyGo_append {α : Type} (T T2 : Text → Option α) (e : Text) (f : α → α)
    (Hsucc : ∀ t r, T t = some r → T2 (t ++ e) = some (f r))
    (Hfail : ∀ t, t ≠ [] → T t = none → T2 (t ++ e) = none) :
    ∀ s acc g r, lazyGo T acc s = some (g, r) →
      lazyGo T2 acc (s ++ e) = some (g, f r) := by
  intro s
  induction s with
  | nil =>
    intro acc g r h
    simp only [lazyGo] at h
    cases hT : T [] with
    | none => rw [hT] at h; simp at h
    | some r0 =>
      rw [hT] at h
      simp only [Option.some_inj, Prod.mk.injEq] at h
      rw [List.nil_append,
        lazyGo_of_tail_some T2 acc e (f r0) (by simpa using Hsucc [] r0 hT)]
      rw [h.1, h.2]
  | cons c cs ih =>
    intro acc g r h
    simp only [lazyGo] at h
    cases hT : T (c :: cs) with
    | some r0 =>
      rw [hT] at h
      simp only [Option.some_inj, Prod.mk.injEq] at h
      rw [List.cons_append,
        lazyGo_of_tail_some T2 acc (c :: (cs ++ e)) (f r0)
          (by simpa using Hsucc (c :: cs) r0 hT)]
      rw [h.1, h.2]
    | none =>
      rw [hT] at h
      have hc : ¬c = '\n' := by
        intro hcc
        rw [if_pos hcc] at h
        simp at h
      rw [if_neg hc] at h
      have h2 : T2 (c :: (cs ++ e)) = none := by
        simpa using Hfail (c :: cs) (by simp) hT
      rw [List.cons_append]
      simp only [lazyGo, h2, if_neg hc]
      exact ih (c :: acc) g r h

theorem lazyPlus_append {α : Type} (T T2 : Text → Option α) (e : Text) (f : α → α)
    (Hsucc : ∀ t r, T t = some r → T2 (t ++ e) = some (f r))
    (Hfail : ∀ t, t ≠ [] → T t = none → T2 (t ++ e) = none)
    (s : Text) (g : Text) (r : α)
    (h : lazyPlus T s = some (g, r)) : lazyPlus T2 (s ++ e) = some (g, f r) := by
  rcases s with _ | ⟨c, cs⟩
  · simp [lazyPlus] at h
  · simp only [lazyPlus] at h
    have hc : ¬c = '\n' := by
      intro hcc
      rw [if_pos hcc] at h
      simp at h
    rw [if_neg hc] at h
    rw [List.cons_append]
    simp only [lazyPlus, if_neg hc]
    exact lazyGo_append T T2 e f Hsucc Hfail cs [c] g r h

theorem lazyGo_of_tail_isSome {α : Type} (T2 : Text → Option α) (acc s : Text)
    (h : (T2 s).isSome = true) : (lazyGo T2 acc s).isSome = true := by
  rcases s with _ | ⟨c, cs⟩ <;>
    (simp only [lazyGo]
     cases hT : T2 _ <;> simp_all)

theorem lazyGo_append_isSome {α : Type} (T T2 : Text → Option α) (e : Text)
    (Hsucc : ∀ t r, T t = some r → (T2 (t ++ e)).isSome = true) :
    ∀ s acc g r, lazyGo T acc s = some (g, r) →
      (lazyGo T2 acc (s ++ e)).isSome = true := by
  intro s
  induction s with
  | nil =>
    intro acc g r h
    simp only [lazyGo] at h
    cases hT : T [] with
    | none => rw [hT] at h; simp at h
    | some r0 =>
      rw [List.nil_append]
      exact lazyGo_of_tail_isSome T2 acc e (by simpa using Hsucc [] r0 hT)
  | cons c cs ih =>
    intro acc g r h
    simp only [lazyGo] at h
    cases hT : T (c :: cs) with
    | some r0 =>
      rw [List.cons_append]
      exact lazyGo_of_tail_isSome T2 acc _ (by simpa using Hsucc (c :: cs) r0 hT)
    | none =>
      rw [hT] at h
      have hc : ¬c = '\n' := by
        intro hcc
        rw [if_pos hcc] at h
        simp at h
      rw [if_neg hc] at h
      rw [List.cons_append]
      simp only [lazyGo]
      cases hT2 : T2 (c :: (cs ++ e)) with
      | some r2 => simp
      | none =>
        rw [if_neg hc]
        exact ih (c :: acc) g r h

theorem lazyPlus_append_isSome {α : Type} (T T2 : Text → Option α) (e : Text)
    (Hsucc : ∀ t r, T t = some r → (T2 (t ++ e)).isSome = true)
    (s : Text) (g : Text) (r : α)
    (h : lazyPlus T s = some (g, r)) : (lazyPlus T2 (s ++ e)).isSome = true := by
  rcases s with _ | ⟨c, cs⟩
  · simp [lazyPlus] at h
  · simp only [lazyPlus] at h
    have hc : ¬c = '\n' := by
      intro hcc
      rw [if_pos hcc] at h
      simp at h
    rw [if_neg hc] at h
    rw [List.cons_append]
    simp only [lazyPlus, if_neg hc]
    exact lazyGo_append_isSome T T2 e Hsucc cs [c] g r h

theorem parse_goto_append (line url extra : Text) (h : parse_goto line = some url) :
    parse_goto (line ++ extra) = some url := by
  unfold parse_goto quotedLazyThen at h ⊢
  cases h1 : litP "Goto".data line with
  | none => rw [h1] at h; simp at h
  | some r1 =>
    rw [h1] at h
    rw [litP_append _ _ extra _ h1]
    simp only [Option.bind_eq_bind, Option.some_bind] at h ⊢
    cases h2 : ws1 r1 with
    | none => rw [h2] at h; simp at h
    | some r2 =>
      rw [h2] at h
      simp only [Option.some_bind] at h
      cases h3 : litP ['"'] r2 with
      | none => rw [h3] at h; simp at h
      | some r3 =>
        rw [h3] at h
        simp only [Option.some_bind] at h
        have hr2ne : r2 ≠ [] := litP_target_ne_nil '"' [] r2 r3 h3
        rw [ws1_append r1 extra r2 h2 hr2ne]
        simp only [Option.some_bind]
        rw [litP_append _ _ extra _ h3]
        simp only [Option.some_bind]
        cases h4 : lazyPlus (fun t => (litP ['"'] t).bind fun t1 => some t1) r3 with
        | none =>
          rw [h4] at h
          simp at h
        | some p =>
          rcases p with ⟨g, rest⟩
          rw [h4] at h
          simp only [Option.some_bind] at h
          have h5 := lazyPlus_append
            (fun t => (litP ['"'] t).bind fun t1 => some t1)
            (fun t => (litP ['"'] t).bind fun t1 => some t1) extra
            (fun x => x ++ extra)
            (by intro t r hr
                dsimp only [] at hr ⊢
                cases hq : litP ['"'] t with
                | none => rw [hq] at hr; simp at hr
                | some t1 =>
                  rw [hq] at hr
                  simp only [Option.some_bind, Option.some_inj] at hr
                  rw [litP_append _ _ extra _ hq]
                  simp only [Option.some_bind, hr])
            (by intro t htne hno
                dsimp only [] at hno ⊢
                cases hq : litP ['"'] t with
                | some t1 => rw [hq] at hno; simp at hno
                | none =>
                  rcases t with _ | ⟨c, cs⟩
                  · exact absurd rfl htne
                  · rw [litP_single '"' c cs] at hq
                    have hcq : ¬ ('"' = c) := by
                      intro hcc
                      rw [if_pos hcc] at hq
                      simp at hq
                    rw [List.cons_append, litP_single '"' c (cs ++ extra), if_neg hcq]
                    simp)
            r3 g rest h4
          rw [h5]
          simp only [Option.some_bind]
          exact h

theorem parse_viewport_append (line : Text) (w h : Nat) (extra : Text)
    (hp : parse_viewport line = some (w, h)) :
    (parse_viewport (line ++ extra)).isSome = true ∧
    ((extra.headD 'a').isDigit = false →
      parse_viewport (line ++ extra) = some (w, h)) := by
  unfold parse_viewport at hp ⊢
  cases h1 : litP "Viewport".data line with
  | none => rw [h1] at hp; simp at hp
  | some r1 =>
    rw [h1] at hp
    simp only [Option.bind_eq_bind, Option.some_bind] at hp
    cases h2 : ws1 r1 with
    | none => rw [h2] at hp; simp at hp
    | some r2 =>
      rw [h2] at hp
      simp only [Option.some_bind] at hp
      cases h3 : digits1 r2 with
      | none => rw [h3] at hp; simp at hp
      | some p =>
        rcases p with ⟨wd, r3⟩
        rw [h3] at hp
        simp only [Option.some_bind] at hp
        cases h4 : litP ['x'] r3 with
        | none => rw [h4] at hp; simp at hp
        | some r4 =>
          rw [h4] at hp
          simp only [Option.some_bind] at hp
          cases h5 : digits1 r4 with
          | none => rw [h5] at hp; simp at hp
          | some q =>
            rcases q with ⟨hd, r5⟩
            rw [h5] at hp
            simp only [Option.some_bind] at hp
            have hr2ne : r2 ≠ [] := by
              intro hh
              subst hh
              simp [digits1] at h3
            have hr3ne : r3 ≠ [] := litP_target_ne_nil 'x' [] r3 r4 h4
            rw [litP_append _ _ extra _ h1]
            simp only [Option.bind_eq_bind, Option.some_bind]
            rw [ws1_append r1 extra r2 h2 hr2ne]
            simp only [Option.some_bind]
            rw [digits1_append_of_rest r2 extra wd r3 h3 hr3ne]
            simp only [Option.some_bind]
            rw [litP_append _ _ extra _ h4]
            simp only [Option.some_bind]
            constructor
            · cases h6 : digits1 (r4 ++ extra) with
              | none =>
                have hs := digits1_append_isSome r4 extra hd r5 h5
                rw [h6] at hs
                simp at hs
              | some q2 =>
                rcases q2 with ⟨a, b⟩
                simp
            · intro hdig
              rcases r5 with _ | ⟨c5, cs5⟩
              · rw [digits1_append_last r4 extra hd h5 hdig]
                simpa using hp
              · rw [digits1_append_of_rest r4 extra hd (c5 :: cs5) h5 (by simp)]
                simpa using hp

theorem handle_goto_resultSE (env : Env) (line url extra : Text)
    (hp : parse_goto line = some url) :
    (handlerResult handle_goto env (line ++ extra)).map resultSE =
      (handlerResult handle_goto env line).map resultSE := by
  unfold handlerResult handle_goto
  rw [hp, parse_goto_append line url extra hp]
  dsimp only []
  cases env.nav url with
  | exn e => rfl
  | noneResp => rfl
  | ok resp perf title => rfl

theorem handle_viewport_resultSE (env : Env) (l1 l2 : Text) (w h : Nat)
    (h1 : parse_viewport l1 = some (w, h)) (h2 : parse_viewport l2 = some (w, h)) :
    (handlerResult handle_viewport env l1).map resultSE =
      (handlerResult handle_viewport env l2).map resultSE := by
  unfold handlerResult handle_viewport
  rw [h1, h2]
  dsimp only []
  cases env.viewportErr w h <;> rfl

theorem litP_cons_eq (q : Char) (s r : Text) (h : litP [q] s = some r) :
    s = q :: r := by
  rcases s with _ | ⟨c, cs⟩
  · simp [litP, List.isPrefixOf] at h
  · rw [litP_single] at h
    by_cases hq : q = c
    · rw [if_pos hq] at h
      simp only [Option.some_inj] at h
      rw [hq, h]
    · rw [if_neg hq] at h
      simp at h

theorem litP_eq_append (p s r : Text) (h : litP p s = some r) : s = p ++ r := by
  unfold litP at h
  split at h
  · rename_i hpre
    simp only [Option.some_inj] at h
    obtain ⟨tl, htl⟩ := List.isPrefixOf_iff_prefix.mp hpre
    rw [← htl, ← h, ← htl, List.drop_left]
  · simp at h

theorem litP_none_append_of_le (p s e : Text) (h : litP p s = none)
    (hle : p.length ≤ s.length) : litP p (s ++ e) = none := by
  unfold litP at h ⊢
  split at h
  · simp at h
  · rename_i hpre
    rw [if_neg ?_]
    intro hpre2
    refine hpre (List.isPrefixOf_iff_prefix.mpr ?_)
    exact List.prefix_of_prefix_length_le (List.isPrefixOf_iff_prefix.mp hpre2)
      (List.prefix_append s e) hle

theorem ws1_suffix (s u : Text) (h : ws1 s = some u) : u <:+ s := by
  rcases s with _ | ⟨c, cs⟩
  · simp [ws1] at h
  · simp only [ws1] at h
    split at h
    · simp only [Option.some_inj] at h
      exact (h ▸ List.dropWhile_suffix isWS).trans (List.suffix_cons c cs)
    · simp at h

theorem ws1_none_append (c : Char) (cs e : Text) (h : ws1 (c :: cs) = none) :
    ws1 (c :: (cs ++ e)) = none := by
  simp only [ws1] at h ⊢
  split at h
  · simp at h
  · rename_i hw
    rw [if_neg hw]

theorem suffix_dropWhile (p : Char → Bool) :
    ∀ (l u : Text), u <:+ l → (∀ c, u.head? = some c → p c = false) →
      u <:+ l.dropWhile p := by
  intro l
  induction l with
  | nil =>
    intro u hu hh
    simpa using hu
  | cons c cs ih =>
    intro u hu hh
    rcases List.suffix_cons_iff.mp hu with rfl | hu2
    · rw [List.dropWhile_cons, if_neg (by simp [hh c rfl])]
    · rw [List.dropWhile_cons]
      split
      · exact ih u hu2 hh
      · exact hu2.trans (List.suffix_cons c cs)

theorem suffix_drop_head :
    ∀ (w v u : Text) (c : Char), u <:+ w ++ v → u.head? = some c → c ∉ w →
      u <:+ v := by
  intro w
  induction w with
  | nil =>
    intro v u c hu _ _
    simpa using hu
  | cons a w' ih =>
    intro v u c hu hh hc
    rcases List.suffix_cons_iff.mp hu with rfl | hu2
    · simp only [List.cons_append, List.head?_cons, Option.some_inj] at hh
      subst hh
      exact absurd (List.mem_cons_self a w') hc
    · exact ih v u c hu2 hh (fun hm => hc (List.mem_cons_of_mem a hm))

theorem lazyGo_success_tail {α : Type} (T : Text → Option α) :
    ∀ (s acc : Text) (g : Text) (r : α), lazyGo T acc s = some (g, r) →
      ∃ u r2, T u = some r2 ∧ u <:+ s := by
  intro s
  induction s with
  | nil =>
    intro acc g r h
    simp only [lazyGo] at h
    cases hT : T [] with
    | none => rw [hT] at h; simp at h
    | some r0 => exact ⟨[], r0, hT, List.nil_suffix⟩
  | cons c cs ih =>
    intro acc g r h
    simp only [lazyGo] at h
    cases hT : T (c :: cs) with
    | some r0 => exact ⟨c :: cs, r0, hT, List.suffix_refl _⟩
    | none =>
      rw [hT] at h
      have hc : ¬c = '\n' := by
        intro hcc
        rw [if_pos hcc] at h
        simp at h
      rw [if_neg hc] at h
      obtain ⟨u, r2, hu, hsuf⟩ := ih (c :: acc) g r h
      exact ⟨u, r2, hu, hsuf.trans (List.suffix_cons c cs)⟩

theorem lazyGo_append_cond {α : Type} (T T2 : Text → Option α) (e : Text)
    (f : α → α)
    (Hsucc : ∀ t r, T t = some r → T2 (t ++ e) = some (f r))
    (Hfail : ∀ t, T t = none →
      (∃ u r2, T u = some r2 ∧ u ≠ t ∧ u <:+ t) → T2 (t ++ e) = none) :
    ∀ s acc g r, lazyGo T acc s = some (g, r) →
      lazyGo T2 acc (s ++ e) = some (g, f r) := by
  intro s
  induction s with
  | nil =>
    intro acc g r h
    simp only [lazyGo] at h
    cases hT : T [] with
    | none => rw [hT] at h; simp at h
    | some r0 =>
      rw [hT] at h
      simp only [Option.some_inj, Prod.mk.injEq] at h
      rw [List.nil_append,
        lazyGo_of_tail_some T2 acc e (f r0) (by simpa using Hsucc [] r0 hT)]
      rw [h.1, h.2]
  | cons c cs ih =>
    intro acc g r h
    simp only [lazyGo] at h
    cases hT : T (c :: cs) with
    | some r0 =>
      rw [hT] at h
      simp only [Option.some_inj, Prod.mk.injEq] at h
      rw [List.cons_append,
        lazyGo_of_tail_some T2 acc (c :: (cs ++ e)) (f r0)
          (by simpa using Hsucc (c :: cs) r0 hT)]
      rw [h.1, h.2]
    | none =>
      rw [hT] at h
      have hc : ¬c = '\n' := by
        intro hcc
        rw [if_pos hcc] at h
        simp at h
      rw [if_neg hc] at h
      obtain ⟨u, r2, hu, hsuf⟩ := lazyGo_success_tail T cs (c :: acc) g r h
      have huch : u ≠ c :: cs := by
        intro he
        have := hsuf.length_le
        rw [he] at this
        simp at this
      have h2 : T2 (c :: (cs ++ e)) = none := by
        simpa using Hfail (c :: cs) hT
          ⟨u, r2, hu, huch, hsuf.trans (List.suffix_cons c cs)⟩
      rw [List.cons_append]
      simp only [lazyGo, h2, if_neg hc]
      exact ih (c :: acc) g r h

theorem lazyPlus_append_cond {α : Type} (T T2 : Text → Option α) (e : Text)
    (f : α → α)
    (Hsucc : ∀ t r, T t = some r → T2 (t ++ e) = some (f r))
    (Hfail : ∀ t, T t = none →
      (∃ u r2, T u = some r2 ∧ u ≠ t ∧ u <:+ t) → T2 (t ++ e) = none)
    (s : Text) (g : Text) (r : α)
    (h : lazyPlus T s = some (g, r)) : lazyPlus T2 (s ++ e) = some (g, f r) := by
  rcases s with _ | ⟨c, cs⟩
  · simp [lazyPlus] at h
  · simp only [lazyPlus] at h
    have hc : ¬c = '\n' := by
      intro hcc
      rw [if_pos hcc] at h
      simp at h
    rw [if_neg hc] at h
    rw [List.cons_append]
    simp only [lazyPlus, if_neg hc]
    exact lazyGo_append_cond T T2 e f Hsucc Hfail cs [c] g r h

theorem lazyGo_none_append_blocked {α : Type} (T : Text → Option α) (e : Text)
    (Hfailne : ∀ c cs, T (c :: cs) = none → T (c :: (cs ++ e)) = none) :
    ∀ (v acc : Text) (q : Text) (r : α), T q = some r → q <:+ v →
      lazyGo T acc v = none → lazyGo T acc (v ++ e) = none := by
  intro v
  induction v with
  | nil =>
    intro acc q r hq hsuf h
    have hq0 : q = [] := List.suffix_nil.mp hsuf
    subst hq0
    simp only [lazyGo] at h
    rw [hq] at h
    simp at h
  | cons c cs ih =>
    intro acc q r hq hsuf h
    simp only [lazyGo] at h
    cases hT : T (c :: cs) with
    | some r0 => rw [hT] at h; simp at h
    | none =>
      rw [hT] at h
      have hqne : q ≠ c :: cs := by
        intro he
        rw [he, hT] at hq
        simp at hq
      have hqsuf : q <:+ cs := by
        rcases List.suffix_cons_iff.mp hsuf with he | h2
        · exact absurd he hqne
        · exact h2
      rw [List.cons_append]
      simp only [lazyGo, Hfailne c cs hT]
      by_cases hc : c = '\n'
      · rw [if_pos hc] at h ⊢
      · rw [if_neg hc] at h ⊢
        exact ih (c :: acc) q r hq hqsuf h

theorem lazyPlus_none_append_blocked {α : Type} (T : Text → Option α) (e : Text)
    (Hfailne : ∀ c cs, T (c :: cs) = none → T (c :: (cs ++ e)) = none)
    (v q : Text) (r : α) (hq : T q = some r) (hne : q ≠ v) (hsuf : q <:+ v)
    (h : lazyPlus T v = none) : lazyPlus T (v ++ e) = none := by
  rcases v with _ | ⟨c, cs⟩
  · exact absurd (List.suffix_nil.mp hsuf) hne
  · simp only [lazyPlus] at h
    rw [List.cons_append]
    simp only [lazyPlus]
    have hqsuf : q <:+ cs := by
      rcases List.suffix_cons_iff.mp hsuf with he | h2
      · exact absurd he hne
      · exact h2
    by_cases hc : c = '\n'
    · rw [if_pos hc]
    · rw [if_neg hc] at h ⊢
      exact lazyGo_none_append_blocked T e Hfailne cs [c] q r hq hqsuf h

theorem fillTail_some_append (e t : Text) (g2 rest : Text)
    (h : fillTail t = some (g2, rest)) :
    fillTail (t ++ e) = some (g2, rest ++ e) := by
  simp only [fillTail, Option.bind_eq_bind, Option.bind_eq_some] at h
  obtain ⟨t1, ht1, u1, hu1, u2, hu2, u3, hu3, v, hv, hlz⟩ := h
  have hu1ne : u1 ≠ [] := by
    rw [litP_eq_append _ _ _ hu2]
    simp
  have hu3ne : u3 ≠ [] := litP_target_ne_nil '"' [] u3 v hv
  simp only [fillTail, Option.bind_eq_bind]
  rw [litP_append _ _ e _ ht1]
  simp only [Option.some_bind]
  rw [ws1_append t1 e u1 hu1 hu1ne]
  simp only [Option.some_bind]
  rw [litP_append _ _ e _ hu2]
  simp only [Option.some_bind]
  rw [ws1_append u2 e u3 hu3 hu3ne]
  simp only [Option.some_bind]
  rw [litP_append _ _ e _ hv]
  simp only [Option.some_bind]
  refine lazyPlus_append _ _ e (fun x => x ++ e) ?_ ?_ v g2 rest hlz
  · intro t r htr
    simp only [Option.bind_eq_bind, Option.bind_eq_some] at htr
    obtain ⟨w1, hw1, hw2⟩ := htr
    simp only [Option.some_inj] at hw2
    rw [litP_append _ _ e _ hw1]
    simp only [Option.some_bind, hw2]
  · intro t htne hno
    rcases t with _ | ⟨c, cs⟩
    · exact absurd rfl htne
    · rw [litP_single] at hno
      have hcq : ¬ ('"' = c) := by
        intro hcc
        rw [if_pos hcc] at hno
        simp at hno
      rw [List.cons_append, litP_single, if_neg hcq]
      simp at hno ⊢

theorem suffix_ws1 (s u u1 : Text) (h : ws1 s = some u1) (hsuf : u <:+ s)
    (hh : u.head? = some '"') : u <:+ u1 := by
  rcases s with _ | ⟨d, ds⟩
  · simp [ws1] at h
  · simp only [ws1] at h
    split at h
    · rename_i hwd
      simp only [Option.some_inj] at h
      rcases List.suffix_cons_iff.mp hsuf with rfl | h2
      · simp only [List.head?_cons, Option.some_inj] at hh
        rw [hh] at hwd
        exact absurd hwd (by decide)
      · rw [← h]
        refine suffix_dropWhile isWS ds u h2 ?_
        intro c hc
        rw [hh] at hc
        simp only [Option.some_inj] at hc
        subst hc
        decide
    · simp at h

theorem fillTail_none_append (e t u : Text) (r2 : Text × Text)
    (hu : fillTail u = some r2) (hne : u ≠ t) (hsuf : u <:+ t)
    (ht : fillTail t = none) : fillTail (t ++ e) = none := by
  simp only [fillTail, Option.bind_eq_bind, Option.bind_eq_some] at hu
  obtain ⟨t1u, ht1u, u1u, hu1u, u2u, hu2u, u3u, hu3u, vu, hvu, hlzu⟩ := hu
  have huq : u = '"' :: t1u := litP_cons_eq '"' u t1u ht1u
  have hu3q : u3u = '"' :: vu := litP_cons_eq '"' u3u vu hvu
  have hu1w : u1u = 'w' :: 'i' :: 't' :: 'h' :: u2u := litP_eq_append _ _ _ hu2u
  have huhead : u.head? = some '"' := by rw [huq]; rfl
  have hsuf1 : u1u <:+ t1u := ws1_suffix t1u u1u hu1u
  have hsuf2 : u2u <:+ u1u := by
    rw [hu1w]
    exact ⟨['w', 'i', 't', 'h'], rfl⟩
  have hsuf3 : u3u <:+ u2u := ws1_suffix u2u u3u hu3u
  have hsuf_u3u_t1u : u3u <:+ t1u := (hsuf3.trans hsuf2).trans hsuf1
  have hsuf_u3u_u : u3u <:+ u := by
    rw [huq]
    exact hsuf_u3u_t1u.trans (List.suffix_cons '"' t1u)
  have hlen1 : u1u.length < t1u.length := by
    rcases t1u with _ | ⟨d, ds⟩
    · simp [ws1] at hu1u
    · simp only [ws1] at hu1u
      split at hu1u
      · simp only [Option.some_inj] at hu1u
        have h2 : (ds.dropWhile isWS).length ≤ ds.length :=
          (List.dropWhile_suffix isWS).length_le
        rw [hu1u] at h2
        simp only [List.length_cons]
        omega
      · simp at hu1u
  have hlenw : u1u.length = 4 + u2u.length := by
    rw [hu1w]
    simp only [List.length_cons]
    omega
  have hlenu : u.length = t1u.length + 1 := by rw [huq]; simp
  have hlen3 : u3u.length ≤ u2u.length := hsuf3.length_le
  have hlen6 : 6 ≤ u.length := by omega
  have hlen_u3u_u : u3u.length < u.length := by omega
  have hlen_u3u_t1u : u3u.length < t1u.length := by omega
  rcases t with _ | ⟨c, cs⟩
  · exact absurd (List.suffix_nil.mp hsuf) (by simp [huq])
  · have husufcs : u <:+ cs := by
      rcases List.suffix_cons_iff.mp hsuf with he | h2
      · exact absurd he hne
      · exact h2
    simp only [fillTail, Option.bind_eq_bind] at ht ⊢
    cases h1 : litP ['"'] (c :: cs) with
    | none =>
      rw [litP_single] at h1
      have hcq : ¬ ('"' = c) := by
        intro hcc
        rw [if_pos hcc] at h1
        simp at h1
      rw [List.cons_append, litP_single, if_neg hcq]
      simp
    | some t1 =>
      obtain ⟨hc_eq, ht1_eq⟩ : c = '"' ∧ cs = t1 := by
        have h1e := litP_cons_eq '"' (c :: cs) t1 h1
        simp only [List.cons.injEq] at h1e
        exact h1e
      subst hc_eq
      subst ht1_eq
      rw [h1] at ht
      simp only [Option.some_bind] at ht
      rw [litP_append _ _ e _ h1]
      simp only [Option.some_bind]
      rcases cs with _ | ⟨d, ds⟩
      · exact absurd (List.suffix_nil.mp husufcs) (by simp [huq])
      · cases h2 : ws1 (d :: ds) with
        | none =>
          rw [List.cons_append, ws1_none_append d ds e h2]
          simp
        | some u1 =>
          have hu1sufx : u <:+ u1 := suffix_ws1 (d :: ds) u u1 h2 husufcs huhead
          have hu1nex : u1 ≠ [] := by
            intro h0
            rw [h0] at hu1sufx
            exact absurd (List.suffix_nil.mp hu1sufx) (by simp [huq])
          rw [h2] at ht
          simp only [Option.some_bind] at ht
          rw [ws1_append (d :: ds) e u1 h2 hu1nex]
          simp only [Option.some_bind]
          cases h3 : litP ['w', 'i', 't', 'h'] u1 with
          | none =>
            rw [litP_none_append_of_le _ _ e h3 (by
              have := hu1sufx.length_le
              simp only [List.length_cons, List.length_nil]
              omega)]
            simp
          | some u2 =>
            have hu1eq : u1 = ['w', 'i', 't', 'h'] ++ u2 := litP_eq_append _ _ _ h3
            have hu2sufx : u <:+ u2 :=
              suffix_drop_head ['w', 'i', 't', 'h'] u2 u '"'
                (hu1eq ▸ hu1sufx) huhead (by decide)
            rw [h3] at ht
            simp only [Option.some_bind] at ht
            rw [litP_append _ _ e _ h3]
            simp only [Option.some_bind]
            rcases u2 with _ | ⟨d2, ds2⟩
            · exact absurd (List.suffix_nil.mp hu2sufx) (by simp [huq])
            · cases h4 : ws1 (d2 :: ds2) with
              | none =>
                rw [List.cons_append, ws1_none_append d2 ds2 e h4]
                simp
              | some u3 =>
                have hu3sufx : u <:+ u3 :=
                  suffix_ws1 (d2 :: ds2) u u3 h4 hu2sufx huhead
                have hu3nex : u3 ≠ [] := by
                  intro h0
                  rw [h0] at hu3sufx
                  exact absurd (List.suffix_nil.mp hu3sufx) (by simp [huq])
                rw [h4] at ht
                simp only [Option.some_bind] at ht
                rw [ws1_append (d2 :: ds2) e u3 h4 hu3nex]
                simp only [Option.some_bind]
                cases h5 : litP ['"'] u3 with
                | none =>
                  rcases u3 with _ | ⟨d3, ds3⟩
                  · exact absurd rfl hu3nex
                  · rw [litP_single] at h5
                    have hcq : ¬ ('"' = d3) := by
                      intro hcc
                      rw [if_pos hcc] at h5
                      simp at h5
                    rw [List.cons_append, litP_single, if_neg hcq]
                    simp
                | some v =>
                  have hu3v : u3 = '"' :: v := litP_cons_eq '"' u3 v h5
                  rw [h5] at ht
                  simp only [Option.some_bind] at ht
                  rw [litP_append _ _ e _ h5]
                  simp only [Option.some_bind]
                  have hTinU : (fun w => (litP ['"'] w).bind fun w1 => some w1)
                      u3u = some vu := by
                    rw [hu3q]
                    simp [litP_single]
                  have hcase : (u = u3 ∧ v = t1u) ∨ u <:+ v := by
                    rcases List.suffix_cons_iff.mp (hu3v ▸ hu3sufx) with he | h2
                    · left
                      constructor
                      · rw [he, hu3v]
                      · have : '"' :: t1u = '"' :: v := by rw [← huq, he]
                        simp only [List.cons.injEq] at this
                        exact this.2.symm
                    · right
                      exact h2
                  have hqsuf : u3u <:+ v := by
                    rcases hcase with ⟨_, hv⟩ | h2
                    · rw [hv]
                      exact hsuf_u3u_t1u
                    · exact hsuf_u3u_u.trans h2
                  have hqne : u3u ≠ v := by
                    intro he
                    rcases hcase with ⟨_, hv⟩ | h2
                    · rw [he, hv] at hlen_u3u_t1u
                      omega
                    · have := h2.length_le
                      rw [he] at hlen_u3u_u
                      omega
                  exact lazyPlus_none_append_blocked _ e (by
                    intro cc ccs hn
                    simp only [litP_single] at hn ⊢
                    by_cases hcc : '"' = cc
                    · rw [if_pos hcc] at hn
                      simp at hn
                    · rw [if_neg hcc]
                      rfl) v u3u vu hTinU hqne hqsuf ht

theorem parse_fill_append (line s t extra : Text)
    (hp : parse_fill line = some (s, t)) :
    parse_fill (line ++ extra) = some (s, t) := by
  unfold parse_fill parse_twoQuoted quotedLazyThen at hp ⊢
  cases h1 : litP "Fill".data line with
  | none => rw [h1] at hp; simp at hp
  | some r1 =>
    rw [h1] at hp
    simp only [Option.bind_eq_bind, Option.some_bind] at hp
    cases h2 : ws1 r1 with
    | none => rw [h2] at hp; simp at hp
    | some r2 =>
      rw [h2] at hp
      simp only [Option.some_bind] at hp
      cases h3 : litP ['"'] r2 with
      | none => rw [h3] at hp; simp at hp
      | some r3 =>
        rw [h3] at hp
        simp only [Option.some_bind] at hp
        have hr2ne : r2 ≠ [] := litP_target_ne_nil '"' [] r2 r3 h3
        rw [litP_append _ _ extra _ h1]
        simp only [Option.bind_eq_bind, Option.some_bind]
        rw [ws1_append r1 extra r2 h2 hr2ne]
        simp only [Option.some_bind]
        rw [litP_append _ _ extra _ h3]
        simp only [Option.some_bind]
        have hTf : (fun t => (litP ['"'] t).bind fun t1 =>
            (ws1 t1).bind fun t1 =>
              (litP ['w', 'i', 't', 'h'] t1).bind fun t2 =>
                (ws1 t2).bind fun t3 =>
                  (litP ['"'] t3).bind fun r =>
                    lazyPlus (fun t => (litP ['"'] t).bind fun t1 => some t1) r)
            = fillTail := rfl
        rw [hTf] at hp ⊢
        rw [Option.bind_eq_some] at hp
        obtain ⟨⟨g1, g2, rest⟩, hlz, hk⟩ := hp
        have hlz2 : lazyPlus fillTail (r3 ++ extra) =
            some (g1, (g2, rest ++ extra)) := by
          refine lazyPlus_append_cond fillTail fillTail extra
            (fun p => (p.1, p.2 ++ extra)) ?_ ?_ r3 g1 (g2, rest) hlz
          · intro t2 r hr
            rcases r with ⟨a, b⟩
            exact fillTail_some_append extra t2 a b hr
          · intro t2 hn hex
            obtain ⟨u, ru, hu, hune, husuf⟩ := hex
            exact fillTail_none_append extra t2 u ru hu hune husuf hn
        rw [hlz2]
        simpa using hk

theorem handle_fill_resultSE (env : Env) (l1 l2 : Text) (s t : Text)
    (h1 : parse_fill l1 = some (s, t)) (h2 : parse_fill l2 = some (s, t)) :
    (handlerResult handle_fill env l1).map resultSE =
      (handlerResult handle_fill env l2).map resultSE := by
  unfold handlerResult handle_fill
  rw [h1, h2]
  dsimp only []
  cases env.fillErr s t <;> rfl

/-- C10 (amended): command grammars are matched by `re.match`, which anchors
only at the start of the line, so a well-formed command body followed by
arbitrary trailing text is never rejected as SYNTAX_ERROR — but the trailing
text is not always ignored: a trailing greedy group can absorb it and change
the parsed arguments (see the Viewport counterexample).  What does hold:
(1) `Goto "URL"` followed by any trailing text still parses to the same URL
and the handler produces the same status, error and payload; (2) a
well-formed `Fill "sel" with "val"` line with any trailing text still parses
to the same selector and text and the handler produces the same status,
error and payload (the lazy interior groups cannot absorb an appended
suffix); (3) a well-formed `Viewport WxH` line with any trailing text is
still accepted, and when the trailing text does not begin with a digit the
parse and the handler verdict are unchanged. -/
theorem C10_trailing_text_prefix_match :
    (∀ env line url extra, parse_goto line = some url →
       parse_goto (line ++ extra) = some url ∧
       (handlerResult handle_goto env (line ++ extra)).map resultSE =
         (handlerResult handle_goto env line).map resultSE) ∧
    (∀ env line s t extra, parse_fill line = some (s, t) →
       parse_fill (line ++ extra) = some (s, t) ∧
       (handlerResult handle_fill env (line ++ extra)).map resultSE =
         (handlerResult handle_fill env line).map resultSE) ∧
    (∀ env line w h extra, parse_viewport line = some (w, h) →
       (parse_viewport (line ++ extra)).isSome = true ∧
       ((extra.headD 'a').isDigit = false →
         parse_viewport (line ++ extra) = some (w, h) ∧
         (handlerResult handle_viewport env (line ++ extra)).map resultSE =
           (handlerResult handle_viewport env line).map resultSE)) := by
  refine ⟨fun env line url extra hp => ⟨parse_goto_append line url extra hp,
      handle_goto_resultSE env line url extra hp⟩,
    fun env line s t extra hp => ⟨parse_fill_append line s t extra hp,
      handle_fill_resultSE env (line ++ extra) line s t
        (parse_fill_append line s t extra hp) hp⟩,
    fun env line w h extra hp => ⟨(parse_viewport_append line w h extra hp).1,
      fun hd => ⟨(parse_viewport_append line w h extra hp).2 hd,
        handle_viewport_resultSE env (line ++ extra) line w h
          ((parse_viewport_append line w h extra hp).2 hd) hp⟩⟩⟩

theorem C10_trailing_text_prefix_match_witness :
    (parse_goto ("Goto \"https://e.com\"".data ++ " trailing words".data) =
       some "https://e.com".data ∧
     (handlerResult handle_goto demoEnv
         ("Goto \"https://e.com\"".data ++ " trailing words".data)).map resultSE =
       (handlerResult handle_goto demoEnv "Goto \"https://e.com\"".data).map resultSE) ∧
    (parse_fill ("Fill \"a\" with \"b\"".data ++ " junk".data) =
       some ("a".data, "b".data) ∧
     (handlerResult handle_fill demoEnv
         ("Fill \"a\" with \"b\"".data ++ " junk".data)).map resultSE =
       (handlerResult handle_fill demoEnv
         "Fill \"a\" with \"b\"".data).map resultSE) ∧
    ((parse_viewport ("Viewport 10x20".data ++ " extra".data)).isSome = true ∧
     parse_viewport ("Viewport 10x20".data ++ " extra".data) = some (10, 20) ∧
     (handlerResult handle_viewport demoEnv
         ("Viewport 10x20".data ++ " extra".data)).map resultSE =
       (handlerResult handle_viewport demoEnv "Viewport 10x20".data).map resultSE) := by
  obtain ⟨hg, hf, hv⟩ := C10_trailing_text_prefix_match
  obtain ⟨hv1, hv2⟩ := hv demoEnv "Viewport 10x20".data 10 20 " extra".data (by decide)
  obtain ⟨hv3, hv4⟩ := hv2 (by decide)
  exact ⟨hg demoEnv "Goto \"https://e.com\"".data "https://e.com".data
      " trailing words".data (by decide),
    hf demoEnv "Fill \"a\" with \"b\"".data "a".data "b".data " junk".data
      (by decide),
    hv1, hv3, hv4⟩

/-! ### C6: auxiliary lemmas about the self-comparison DP -/

theorem mem_positionsFrom (c : Char) (s : Text) :
    ∀ (i x : Nat), x ∈ positionsFrom c s i ↔
      i ≤ x ∧ x - i < s.length ∧ s.getD (x - i) 'a' = c := by
  induction s with
  | nil => intro i x; simp [positionsFrom]
  | cons y ys ih =>
    intro i x
    simp only [positionsFrom]
    by_cases hy : y = c
    · rw [if_pos hy]
      simp only [List.mem_cons, ih (i + 1) x]
      constructor
      · rintro (rfl | ⟨h1, h2, h3⟩)
        · exact ⟨le_refl x, by simp, by simpa using hy⟩
        · refine ⟨by omega, by simp; omega, ?_⟩
          have : x - i = (x - (i + 1)) + 1 := by omega
          rw [this]
          simpa using h3
      · rintro ⟨h1, h2, h3⟩
        rcases Nat.eq_or_lt_of_le h1 with rfl | hlt
        · exact Or.inl rfl
        · refine Or.inr ⟨by omega, by simp at h2; omega, ?_⟩
          have : x - i = (x - (i + 1)) + 1 := by omega
          rw [this] at h3
          simpa using h3
    · rw [if_neg hy]
      rw [ih (i + 1) x]
      constructor
      · rintro ⟨h1, h2, h3⟩
        refine ⟨by omega, by simp; omega, ?_⟩
        have : x - i = (x - (i + 1)) + 1 := by omega
        rw [this]
        simpa using h3
      · rintro ⟨h1, h2, h3⟩
        rcases Nat.eq_or_lt_of_le h1 with rfl | hlt
        · simp at h3
          exact absurd h3 hy
        · refine ⟨by omega, by simp at h2; omega, ?_⟩
          have : x - i = (x - (i + 1)) + 1 := by omega
          rw [this] at h3
          simpa using h3

theorem mem_positionsOf (c : Char) (s : Text) (x : Nat) :
    x ∈ positionsOf c s ↔ x < s.length ∧ s.getD x 'a' = c := by
  rw [positionsOf, mem_positionsFrom]
  simp

theorem sorted_positionsFrom (c : Char) (s : Text) :
    ∀ i, List.Sorted (· < ·) (positionsFrom c s i) := by
  induction s with
  | nil => intro i; simp [positionsFrom]
  | cons y ys ih =>
    intro i
    simp only [positionsFrom]
    by_cases hy : y = c
    · rw [if_pos hy]
      refine List.sorted_cons.mpr ⟨?_, ih (i + 1)⟩
      intro b hb
      have := (mem_positionsFrom c ys (i + 1) b).mp hb
      omega
    · rw [if_neg hy]
      exact ih (i + 1)

theorem mem_b2j (b : Text) (c : Char) (x : Nat) (h : x ∈ b2j b c) :
    x < b.length ∧ b.getD x 'a' = c := by
  unfold b2j at h
  split at h
  · simp at h
  · exact (mem_positionsOf c b x).mp h

theorem b2j_complete (b : Text) (c : Char) (h : b2j b c ≠ []) (p : Nat)
    (hp : p < b.length) (hc : b.getD p 'a' = c) : p ∈ b2j b c := by
  unfold b2j at h ⊢
  split at h
  · exact absurd rfl h
  · rename_i hcond
    rw [if_neg hcond]
    exact (mem_positionsOf c b p).mpr ⟨hp, hc⟩

theorem sorted_b2j (b : Text) (c : Char) : List.Sorted (· < ·) (b2j b c) := by
  unfold b2j
  split
  · simp
  · exact sorted_positionsFrom c b 0

theorem drun_le (s : Text) (f : Char → List Nat) : ∀ r, drun s f r ≤ r + 1 := by
  intro r
  induction r with
  | zero => unfold drun; split <;> omega
  | succ m ih => unfold drun; split <;> omega

theorem drun_le_maxD (s : Text) (f : Char → List Nat) :
    ∀ r j, j < r → drun s f j ≤ maxD s f r := by
  intro r
  induction r with
  | zero => intro j hj; omega
  | succ m ih =>
    intro j hj
    unfold maxD
    rcases Nat.lt_or_ge j m with h | h
    · exact le_trans (ih j h) (le_max_left _ _)
    · have : j = m := by omega
      subst this
      exact le_max_right _ _

theorem drun_of_inDom (s : Text) (f : Char → List Nat) (r : Nat)
    (h : inDom s f r) :
    drun s f r = (if r = 0 then 0 else drun s f (r - 1)) + 1 := by
  rcases r with _ | m
  · simp [drun, if_pos h]
  · simp [drun, if_pos h]

theorem drun_of_not_inDom (s : Text) (f : Char → List Nat) (r : Nat)
    (h : ¬inDom s f r) : drun s f r = 0 := by
  rcases r with _ | m
  · simp [drun, if_neg h]
  · simp [drun, if_neg h]

theorem maxD_succ (s : Text) (f : Char → List Nat) (r : Nat) :
    maxD s f (r + 1) = max (maxD s f r) (drun s f r) := rfl

theorem flmRow_fst (j2len : Nat → Nat) (i : Nat) :
    ∀ (js : List Nat) (newj2len : Nat → Nat) (best : FLMBest),
      (flmRow j2len i js newj2len best).1 =
        fun j => if j ∈ js then kfun j2len j else newj2len j := by
  intro js
  induction js with
  | nil =>
    intro newj2len best
    funext j
    simp [flmRow]
  | cons j js ih =>
    intro newj2len best
    simp only [flmRow]
    rw [ih]
    funext j2
    by_cases h1 : j2 ∈ js
    · simp [h1]
    · by_cases h2 : j2 = j
      · subst h2
        simp [h1, kfun]
      · simp [h1, h2]

theorem flmRow_best (s : Text) (b2jf : Char → List Nat) (i : Nat)
    (j2len : Nat → Nat)
    (Hchar : ∀ c j, j ∈ b2jf c → s.getD j 'a' = c)
    (Hself : ∀ j, j ∈ b2jf (s.getD i 'a') → inDom s b2jf i)
    (hG1 : ∀ j, j2len j ≤ drun s b2jf j)
    (hkdiag : inDom s b2jf i → kfun j2len i = drun s b2jf i)
    (hkbound : inDom s b2jf i → ∀ j, kfun j2len j ≤ drun s b2jf i) :
    ∀ (js : List Nat) (newj2len : Nat → Nat) (best : FLMBest),
      (∀ j ∈ js, j ∈ b2jf (s.getD i 'a')) →
      List.Sorted (· < ·) js →
      best.besti = best.bestj →
      ((i ∈ js ∧ best.bestsize = maxD s b2jf i ∧ best.bestj + best.bestsize ≤ i) ∨
       (i ∉ js ∧ best.bestsize = maxD s b2jf (i + 1) ∧
         best.bestj + best.bestsize ≤ i + 1)) →
      (flmRow j2len i js newj2len best).2.besti =
          (flmRow j2len i js newj2len best).2.bestj ∧
        (flmRow j2len i js newj2len best).2.bestsize = maxD s b2jf (i + 1) ∧
        (flmRow j2len i js newj2len best).2.bestj +
            (flmRow j2len i js newj2len best).2.bestsize ≤ i + 1 := by
  intro js
  induction js with
  | nil =>
    intro newj2len best hmem hsort hdiag hinv
    rcases hinv with ⟨hin, _⟩ | ⟨_, hsz, hle⟩
    · simp at hin
    · exact ⟨hdiag, hsz, hle⟩
  | cons j js ih =>
    intro newj2len best hmem hsort hdiag hinv
    have hjmem : j ∈ b2jf (s.getD i 'a') := hmem j (List.mem_cons_self j js)
    have hindomI : inDom s b2jf i := Hself j hjmem
    have hindomJ : inDom s b2jf j := by
      have hc := Hchar _ j hjmem
      unfold inDom
      rw [hc]
      exact hjmem
    have hmem2 : ∀ j2 ∈ js, j2 ∈ b2jf (s.getD i 'a') :=
      fun j2 h2 => hmem j2 (List.mem_cons_of_mem j h2)
    have hsort2 : List.Sorted (· < ·) js := (List.sorted_cons.mp hsort).2
    have hgt : ∀ b ∈ js, j < b := (List.sorted_cons.mp hsort).1
    simp only [flmRow]
    rcases Nat.lt_trichotomy j i with hji | hji | hji
    · have hkj : kfun j2len j ≤ maxD s b2jf i := by
        have h1 : kfun j2len j ≤ drun s b2jf j := by
          unfold kfun
          rcases Nat.eq_zero_or_pos j with rfl | hj0
          · rw [if_pos rfl, drun_of_inDom s b2jf 0 hindomJ]
            simp
          · rw [if_neg (by omega), drun_of_inDom s b2jf j hindomJ,
              if_neg (by omega)]
            have := hG1 (j - 1)
            omega
        exact le_trans h1 (drun_le_maxD s b2jf i j hji)
      have hbs : maxD s b2jf i ≤ best.bestsize := by
        rcases hinv with ⟨_, hsz, _⟩ | ⟨_, hsz, _⟩
        · omega
        · rw [hsz, maxD_succ]
          exact le_max_left _ _
      have hnoup : ¬(best.bestsize < (if j = 0 then 0 else j2len (j - 1)) + 1) := by
        have hk : (if j = 0 then 0 else j2len (j - 1)) + 1 = kfun j2len j := rfl
        omega
      rw [if_neg hnoup]
      refine ih _ best hmem2 hsort2 hdiag ?_
      rcases hinv with ⟨hiin, hsz, hle⟩ | ⟨hnin, hsz, hle⟩
      · rcases List.mem_cons.mp hiin with rfl | hiin2
        · omega
        · exact Or.inl ⟨hiin2, hsz, hle⟩
      · exact Or.inr ⟨fun h2 => hnin (List.mem_cons_of_mem j h2), hsz, hle⟩
    · subst hji
      have hnotin : j ∉ js := fun h2 => absurd (hgt j h2) (lt_irrefl j)
      rcases hinv with ⟨hiin, hsz, hle⟩ | ⟨hnin, hsz, hle⟩
      · have hk : (if j = 0 then 0 else j2len (j - 1)) + 1 = drun s b2jf j :=
          hkdiag hindomI
        have hdle : drun s b2jf j ≤ j + 1 := drun_le s b2jf j
        by_cases hup : best.bestsize < (if j = 0 then 0 else j2len (j - 1)) + 1
        · rw [if_pos hup]
          refine ih _ _ hmem2 hsort2 rfl ?_
          refine Or.inr ⟨hnotin, ?_, ?_⟩
          · show (if j = 0 then 0 else j2len (j - 1)) + 1 = maxD s b2jf (j + 1)
            rw [maxD_succ, hk]
            omega
          · show (j + 1 - ((if j = 0 then 0 else j2len (j - 1)) + 1)) +
                ((if j = 0 then 0 else j2len (j - 1)) + 1) ≤ j + 1
            omega
        · rw [if_neg hup]
          refine ih _ best hmem2 hsort2 hdiag ?_
          refine Or.inr ⟨hnotin, ?_, by omega⟩
          rw [maxD_succ, hsz]
          omega
      · exact absurd (List.mem_cons_self j js) hnin
    · have hnin : i ∉ j :: js := by
        intro hiin
        rcases List.mem_cons.mp hiin with rfl | hiin2
        · omega
        · exact absurd (hgt i hiin2) (by omega)
      rcases hinv with ⟨hiin, _, _⟩ | ⟨_, hsz, hle⟩
      · exact absurd hiin hnin
      · have hkj : kfun j2len j ≤ drun s b2jf i := hkbound hindomI j
        have hdm : drun s b2jf i ≤ maxD s b2jf (i + 1) := by
          rw [maxD_succ]
          exact le_max_right _ _
        have hnoup : ¬(best.bestsize <
            (if j = 0 then 0 else j2len (j - 1)) + 1) := by
          have hk : (if j = 0 then 0 else j2len (j - 1)) + 1 = kfun j2len j := rfl
          omega
        rw [if_neg hnoup]
        refine ih _ best hmem2 hsort2 hdiag ?_
        exact Or.inr ⟨fun h2 => hnin (List.mem_cons_of_mem j h2), hsz, hle⟩

theorem kfun_le_drun (s : Text) (b2jf : Char → List Nat) (j2len : Nat → Nat)
    (hG1 : ∀ j, j2len j ≤ drun s b2jf j) (j : Nat) (hj : inDom s b2jf j) :
    kfun j2len j ≤ drun s b2jf j := by
  unfold kfun
  rcases Nat.eq_zero_or_pos j with rfl | hj0
  · rw [if_pos rfl, drun_of_inDom s b2jf 0 hj]
    simp
  · rw [if_neg (by omega), drun_of_inDom s b2jf j hj, if_neg (by omega)]
    have := hG1 (j - 1)
    omega

theorem flmRows_diag (s : Text) (b2jf : Char → List Nat)
    (Hchar : ∀ c j, j ∈ b2jf c → s.getD j 'a' = c)
    (Hcomp : ∀ c, b2jf c ≠ [] → ∀ p, p < s.length → s.getD p 'a' = c → p ∈ b2jf c)
    (Hsort : ∀ c, List.Sorted (· < ·) (b2jf c)) :
    ∀ (m r : Nat) (j2len : Nat → Nat) (best : FLMBest),
      r + m = s.length →
      (∀ j, j2len j ≤ drun s b2jf j) →
      (∀ j, j2len j ≤ (if r = 0 then 0 else drun s b2jf (r - 1))) →
      (r ≠ 0 → j2len (r - 1) = drun s b2jf (r - 1)) →
      best.besti = best.bestj →
      best.bestsize = maxD s b2jf r →
      best.bestj + best.bestsize ≤ r →
      (flmRows s b2jf 0 s.length (List.range' r m) j2len best).besti =
          (flmRows s b2jf 0 s.length (List.range' r m) j2len best).bestj ∧
        (flmRows s b2jf 0 s.length (List.range' r m) j2len best).bestsize =
          maxD s b2jf s.length ∧
        (flmRows s b2jf 0 s.length (List.range' r m) j2len best).bestj +
            (flmRows s b2jf 0 s.length (List.range' r m) j2len best).bestsize ≤
          s.length := by
  intro m
  induction m with
  | zero =>
    intro r j2len best hrm hG1 hG2 hG3 hd hsz hle
    have hr : r = s.length := by omega
    subst hr
    simp only [List.range', flmRows]
    exact ⟨hd, hsz, hle⟩
  | succ m ih =>
    intro r j2len best hrm hG1 hG2 hG3 hd hsz hle
    have hrn : r < s.length := by omega
    rw [List.range'_succ]
    simp only [flmRows]
    have hjsmem : ∀ j ∈ (b2jf (s.getD r 'a')).filter
        (fun j => 0 ≤ j && j < s.length), j ∈ b2jf (s.getD r 'a') :=
      fun j h => (List.mem_filter.mp h).1
    have hjs_sorted : List.Sorted (· < ·) ((b2jf (s.getD r 'a')).filter
        (fun j => 0 ≤ j && j < s.length)) :=
      List.Pairwise.filter _ (Hsort _)
    have hself : ∀ j, j ∈ b2jf (s.getD r 'a') → inDom s b2jf r := by
      intro j hj
      unfold inDom
      exact Hcomp _ (by intro he; rw [he] at hj; simp at hj) r hrn rfl
    have hindom_of_mem : ∀ j ∈ (b2jf (s.getD r 'a')).filter
        (fun j => 0 ≤ j && j < s.length), inDom s b2jf j := by
      intro j hj
      have hjm := hjsmem j hj
      have hc := Hchar _ j hjm
      unfold inDom
      rw [hc]
      exact hjm
    have hkdiag : inDom s b2jf r → kfun j2len r = drun s b2jf r := by
      intro hr
      unfold kfun
      rw [drun_of_inDom s b2jf r hr]
      rcases Nat.eq_zero_or_pos r with rfl | hr0
      · simp
      · rw [if_neg (by omega), if_neg (by omega), hG3 (by omega)]
    have hkbound : inDom s b2jf r → ∀ j, kfun j2len j ≤ drun s b2jf r := by
      intro hr j
      unfold kfun
      rw [drun_of_inDom s b2jf r hr]
      rcases Nat.eq_zero_or_pos j with rfl | hj0
      · simp
      · rw [if_neg (by omega)]
        have h2 := hG2 (j - 1)
        rcases Nat.eq_zero_or_pos r with rfl | hr0
        · rw [if_pos rfl] at h2 ⊢
          omega
        · rw [if_neg (by omega)] at h2 ⊢
          omega
    have hmemr : inDom s b2jf r → r ∈ (b2jf (s.getD r 'a')).filter
        (fun j => 0 ≤ j && j < s.length) := by
      intro hr
      refine List.mem_filter.mpr ⟨hr, ?_⟩
      simp [hrn]
    have hinv0 : (r ∈ (b2jf (s.getD r 'a')).filter
          (fun j => 0 ≤ j && j < s.length) ∧
        best.bestsize = maxD s b2jf r ∧ best.bestj + best.bestsize ≤ r) ∨
        (r ∉ (b2jf (s.getD r 'a')).filter (fun j => 0 ≤ j && j < s.length) ∧
          best.bestsize = maxD s b2jf (r + 1) ∧
          best.bestj + best.bestsize ≤ r + 1) := by
      by_cases hrin : r ∈ (b2jf (s.getD r 'a')).filter
          (fun j => 0 ≤ j && j < s.length)
      · exact Or.inl ⟨hrin, hsz, hle⟩
      · refine Or.inr ⟨hrin, ?_, by omega⟩
        have hnod : ¬inDom s b2jf r := fun hr => hrin (hmemr hr)
        rw [maxD_succ, drun_of_not_inDom s b2jf r hnod, hsz]
        omega
    have hrow := flmRow_best s b2jf r j2len Hchar hself hG1 hkdiag hkbound
      ((b2jf (s.getD r 'a')).filter (fun j => 0 ≤ j && j < s.length))
      (fun _ => 0) best hjsmem hjs_sorted hd hinv0
    have hfst := flmRow_fst j2len r
      ((b2jf (s.getD r 'a')).filter (fun j => 0 ≤ j && j < s.length))
      (fun _ => 0) best
    refine ih (r + 1) _ _ (by omega) ?_ ?_ ?_ hrow.1 hrow.2.1 (by
      have := hrow.2.2
      omega)
    · intro j
      simp only [hfst]
      by_cases hjin : j ∈ (b2jf (s.getD r 'a')).filter
          (fun j => 0 ≤ j && j < s.length)
      · rw [if_pos hjin]
        exact kfun_le_drun s b2jf j2len hG1 j (hindom_of_mem j hjin)
      · rw [if_neg hjin]
        omega
    · intro j
      simp only [hfst]
      rw [if_neg (by omega : ¬r + 1 = 0)]
      have : r + 1 - 1 = r := by omega
      rw [this]
      by_cases hjin : j ∈ (b2jf (s.getD r 'a')).filter
          (fun j => 0 ≤ j && j < s.length)
      · rw [if_pos hjin]
        exact hkbound (hself j (hjsmem j hjin)) j
      · rw [if_neg hjin]
        omega
    · intro _
      simp only [hfst]
      have : r + 1 - 1 = r := by omega
      rw [this]
      by_cases hr : inDom s b2jf r
      · rw [if_pos (hmemr hr)]
        exact hkdiag hr
      · rw [if_neg (fun hrin => hr (hself r (hjsmem r hrin))),
          drun_of_not_inDom s b2jf r hr]

theorem extendBack_self (s : Text) :
    ∀ (d sz : Nat), extendBack s s 0 0 d d sz = ⟨0, 0, d + sz⟩ := by
  intro d
  induction d with
  | zero => intro sz; simp [extendBack]
  | succ b ihb =>
    intro sz
    unfold extendBack
    rw [if_pos ⟨by omega, by omega, by simp⟩]
    simp only [Nat.add_sub_cancel]
    rw [ihb (sz + 1)]
    congr 1
    omega

theorem extendFwdGo_self (s : Text) (n : Nat) :
    ∀ (fuel K : Nat), K + fuel ≤ n →
      extendFwdGo s s n n 0 0 fuel K = ⟨0, 0, K + fuel⟩ := by
  intro fuel
  induction fuel with
  | zero => intro K hK; simp [extendFwdGo]
  | succ f ihf =>
    intro K hK
    unfold extendFwdGo
    rw [if_pos ⟨by omega, by omega, rfl⟩]
    rw [ihf (K + 1) (by omega)]
    congr 1
    omega

theorem find_longest_match_self (s : Text) (b2jf : Char → List Nat)
    (Hchar : ∀ c j, j ∈ b2jf c → s.getD j 'a' = c)
    (Hcomp : ∀ c, b2jf c ≠ [] → ∀ p, p < s.length → s.getD p 'a' = c → p ∈ b2jf c)
    (Hsort : ∀ c, List.Sorted (· < ·) (b2jf c)) :
    find_longest_match s s b2jf 0 s.length 0 s.length = ⟨0, 0, s.length⟩ := by
  have h0 := flmRows_diag s b2jf Hchar Hcomp Hsort s.length 0 (fun _ => 0)
    ⟨0, 0, 0⟩ (by omega) (fun j => Nat.zero_le _) (fun j => by simp)
    (fun hr => absurd rfl hr) rfl rfl (by simp)
  simp only [find_longest_match, Nat.sub_zero]
  rcases hbb : flmRows s b2jf 0 s.length (List.range' 0 s.length)
      (fun _ => 0) ⟨0, 0, 0⟩ with ⟨bi, bj, bs⟩
  rw [hbb] at h0
  obtain ⟨hd, hsz, hle⟩ := h0
  simp only at hd hsz hle
  subst hd
  rw [extendBack_self s bi bs]
  unfold extendFwd
  simp only
  rw [extendFwdGo_self s s.length (s.length - (0 + (bi + bs)))
    (bi + bs) (by omega)]
  congr 1
  omega

theorem matchTotal_empty_window (a b : Text) (b2jf : Char → List Nat)
    (fuel alo blo bhi : Nat) :
    matchTotal a b b2jf (fuel + 1) alo alo blo bhi = 0 := by
  have hflm : find_longest_match a b b2jf alo alo blo bhi = ⟨alo, blo, 0⟩ := by
    simp only [find_longest_match, Nat.sub_self]
    have h1 : flmRows a b2jf blo bhi (List.range' alo 0) (fun _ => 0)
        ⟨alo, blo, 0⟩ = ⟨alo, blo, 0⟩ := by
      simp [List.range', flmRows]
    rw [h1]
    have h2 : extendBack a b alo blo alo blo 0 = ⟨alo, blo, 0⟩ := by
      rcases alo with _ | m
      · simp [extendBack]
      · unfold extendBack
        rw [if_neg (by omega)]
    rw [h2]
    unfold extendFwd
    simp only [Nat.add_zero, Nat.sub_self]
    simp [extendFwdGo]
  unfold matchTotal
  rw [hflm]
  simp

theorem matchTotal_self (s : Text) (b2jf : Char → List Nat)
    (Hchar : ∀ c j, j ∈ b2jf c → s.getD j 'a' = c)
    (Hcomp : ∀ c, b2jf c ≠ [] → ∀ p, p < s.length → s.getD p 'a' = c → p ∈ b2jf c)
    (Hsort : ∀ c, List.Sorted (· < ·) (b2jf c))
    (hne : s.length ≠ 0) :
    matchTotal s s b2jf (s.length + 1) 0 s.length 0 s.length = s.length := by
  unfold matchTotal
  rw [find_longest_match_self s b2jf Hchar Hcomp Hsort]
  rw [if_neg (by simpa using hne)]
  simp only
  obtain ⟨m, hm⟩ : ∃ m, s.length = m + 1 := ⟨s.length - 1, by omega⟩
  rw [hm]
  rw [matchTotal_empty_window s s b2jf m 0 0 0]
  simp only [Nat.zero_add]
  rw [matchTotal_empty_window s s b2jf m (m + 1) (m + 1) (m + 1)]

theorem similar_self (s : Text) : similar s s = 1 := by
  by_cases h0 : s.length = 0
  · unfold similar ratioOf
    rw [if_pos (by omega)]
  · have hM := matchTotal_self s (b2j s)
      (fun c j hj => (mem_b2j s c j hj).2)
      (b2j_complete s) (sorted_b2j s) h0
    rw [similar_eq_of s s s.length hM (by omega)]
    have h2 : ((s.length : ℚ) + s.length) = 2 * s.length := by ring
    rw [h2]
    rw [div_eq_one_iff_eq (mul_ne_zero two_ne_zero (Nat.cast_ne_zero.mpr h0))]

theorem positionsFrom_nil_of_not_mem (c : Char) (s : Text) (h : c ∉ s) :
    ∀ i, positionsFrom c s i = [] := by
  induction s with
  | nil => intro i; rfl
  | cons y ys ih =>
    intro i
    simp only [positionsFrom]
    rw [if_neg (by rintro rfl; exact h (List.mem_cons_self y ys))]
    exact ih (fun hm => h (List.mem_cons_of_mem y hm)) (i + 1)

theorem b2j_nil_of_not_mem (b : Text) (c : Char) (h : c ∉ b) : b2j b c = [] := by
  unfold b2j
  split
  · rfl
  · exact positionsFrom_nil_of_not_mem c b h 0

theorem flmRows_no_rows (a : Text) (b2jf : Char → List Nat) (blo bhi : Nat) :
    ∀ (rows : List Nat) (j2len : Nat → Nat) (best : FLMBest),
      (∀ i ∈ rows, b2jf (a.getD i 'a') = []) →
      flmRows a b2jf blo bhi rows j2len best = best := by
  intro rows
  induction rows with
  | nil => intro j2len best hrows; rfl
  | cons i is ih =>
    intro j2len best hrows
    simp only [flmRows]
    rw [hrows i (List.mem_cons_self i is)]
    simp only [List.filter_nil, flmRow]
    exact ih _ best (fun i2 h2 => hrows i2 (List.mem_cons_of_mem i h2))

theorem similar_disjoint (a b : Text) (hdisj : ∀ c ∈ a, c ∉ b)
    (hne : a ≠ [] ∨ b ≠ []) : similar a b = 0 := by
  have hrows : ∀ i ∈ List.range' 0 a.length, b2j b (a.getD i 'a') = [] := by
    intro i hi
    have hilt : i < a.length := by
      have := List.mem_range'_1.mp hi
      omega
    refine b2j_nil_of_not_mem b _ (hdisj _ ?_)
    rw [List.getD_eq_getElem a 'a' hilt]
    exact List.getElem_mem hilt
  have hflm : find_longest_match a b (b2j b) 0 a.length 0 b.length =
      ⟨0, 0, 0⟩ := by
    simp only [find_longest_match, Nat.sub_zero]
    rw [flmRows_no_rows a (b2j b) 0 b.length (List.range' 0 a.length)
      (fun _ => 0) ⟨0, 0, 0⟩ hrows]
    simp only [extendBack]
    unfold extendFwd
    simp only [Nat.add_zero, Nat.zero_add, Nat.sub_zero]
    rcases ha : a with _ | ⟨x, xs⟩
    · rfl
    · simp only [List.length_cons]
      unfold extendFwdGo
      rw [if_neg ?_]
      rintro ⟨h1, h2, h3⟩
      rcases hb : b with _ | ⟨y, ys⟩
      · subst hb; simp at h2
      · simp only [ha, Nat.add_zero, Nat.zero_add, List.getD_cons_zero] at h3
        have hyb : List.getD b 0 'a' ∈ b := by
          rw [hb]; simp
        rw [← h3] at hyb
        exact hdisj x (by rw [ha]; exact List.mem_cons_self x xs) hyb
  have hM : matchTotal a b (b2j b) (a.length + 1) 0 a.length 0 b.length = 0 := by
    unfold matchTotal
    rw [hflm]
    simp
  have h0 : a.length + b.length ≠ 0 := by
    rcases hne with h | h
    · have : a.length ≠ 0 := by simpa using h
      omega
    · have : b.length ≠ 0 := by simpa using h
      omega
  rw [similar_eq_of a b 0 hM h0]
  norm_num

/-- C6 (amended): the similarity scoring function is NOT symmetric (see the
counterexample theorem: difflib SequenceMatcher.ratio prefers matching blocks
earliest in its first argument, so the two orders can give different totals),
but the other two claimed properties hold of the code: `similar` returns 1
when both strings are identical, and returns 0 when the two strings have
disjoint character sets and are not both empty (on two empty strings the
`T = 0` branch of `_calculate_ratio` returns 1, not 0). -/
theorem C6_identity_and_disjoint :
    (∀ s : Text, similar s s = 1) ∧
    (∀ a b : Text, (∀ c ∈ a, c ∉ b) → (a ≠ [] ∨ b ≠ []) → similar a b = 0) :=
  ⟨similar_self, similar_disjoint⟩

theorem C6_identity_and_disjoint_witness :
    similar "hello".data "hello".data = 1 ∧ similar "abc".data "xyz".data = 0 := by
  obtain ⟨h1, h2⟩ := C6_identity_and_disjoint
  exact ⟨h1 "hello".data,
    h2 "abc".data "xyz".data (by decide) (Or.inl (by decide))⟩

